import Mathlib

/-!
# cass: a content-addressed file drop

A shallow embedding of `cass.go` (package `main`) together with the pieces of
the Go standard library that `saver` and the two HTTP handlers call.

* Go values of type `string` and `[]byte` are byte sequences: `GoString`.
* 32-bit and 64-bit machine words are natural numbers reduced with an explicit
  `% 2 ^ 32` or `% 2 ^ 64`.
* The file system is a map from path names to files; every operating-system
  call takes the outcome the environment chooses for it (a fault, a random
  number) as an explicit argument and returns the new file system.
-/

namespace Cass

/-! ## Byte strings -/

/-- Go `string` and `[]byte`: a finite sequence of bytes. -/
abbrev GoString := List UInt8

/-- The bytes of a string literal (its UTF-8 encoding, as in Go source text). -/
def str (s : String) : GoString := s.toUTF8.data.toList

/-- The byte `'/'`. -/
def slash : UInt8 := 47

/-- The byte `'.'`. -/
def dot : UInt8 := 46

/-! ## `path.Ext` -/

/-- The loop of `path.Ext`: `k` is `i + 1` for the loop variable `i`, which runs
from `len(path) - 1` downwards while `i >= 0 && path[i] != '/'`. -/
def extLoop (path : GoString) : Nat → GoString
  | 0 => []
  | i + 1 =>
    if path.getD i 0 = slash then []
    else if path.getD i 0 = dot then path.drop i
    else extLoop path i

/-- Go `path.Ext`: the suffix beginning at the final dot in the final
slash-separated element of `path`; empty if there is no dot. -/
def Ext (path : GoString) : GoString := extLoop path path.length

/-! ## `fmt.Sprintf("%x%s", ...)` -/

/-- One digit of `"0123456789abcdef"`. -/
def hexDigit (n : Nat) : UInt8 :=
  if n < 10 then UInt8.ofNat (48 + n) else UInt8.ofNat (87 + n)

/-- The verb `%x` applied to a byte slice: two lower-case hex digits per byte. -/
def hexEncode : List UInt8 → GoString
  | [] => []
  | b :: bs => hexDigit (b.toNat >>> 4) :: hexDigit (b.toNat &&& 0xF) :: hexEncode bs

/-- The call `fmt.Sprintf("%x%s", sum, ext)`. -/
def sprintfXS (sum : List UInt8) (ext : GoString) : GoString := hexEncode sum ++ ext

/-! ## `crypto/sha1` -/

/-- Addition of `uint32` values. -/
def add32 (a b : Nat) : Nat := (a + b) % 2 ^ 32

/-- Go `bits.RotateLeft32`. -/
def rotl32 (x k : Nat) : Nat := ((x <<< k) % 2 ^ 32) ||| ((x % 2 ^ 32) >>> (32 - k))

/-- Bitwise complement of a `uint32`. -/
def not32 (x : Nat) : Nat := 2 ^ 32 - 1 - x % 2 ^ 32

/-- The big-endian word `uint32(p[j])<<24 | uint32(p[j+1])<<16 | uint32(p[j+2])<<8 | uint32(p[j+3])`. -/
def beWord (p : List UInt8) (j : Nat) : Nat :=
  ((p.getD j 0).toNat <<< 24) ||| ((p.getD (j + 1) 0).toNat <<< 16) |||
    ((p.getD (j + 2) 0).toNat <<< 8) ||| (p.getD (j + 3) 0).toNat

/-- The working variables `a, b, c, d, e` together with the 16-word schedule `w`. -/
structure Round where
  a : Nat
  b : Nat
  c : Nat
  d : Nat
  e : Nat
  w : List Nat

/-- One of the 80 steps of `blockGeneric`, for step number `i`. -/
def sha1Step (s : Round) (i : Nat) : Round :=
  let w :=
    if i < 16 then s.w
    else
      let tmp := s.w.getD ((i - 3) &&& 0xf) 0 ^^^ s.w.getD ((i - 8) &&& 0xf) 0 ^^^
        s.w.getD ((i - 14) &&& 0xf) 0 ^^^ s.w.getD (i &&& 0xf) 0
      s.w.set (i &&& 0xf) (rotl32 tmp 1)
  let f :=
    if i < 20 then (s.b &&& s.c) ||| (not32 s.b &&& s.d)
    else if i < 40 then s.b ^^^ s.c ^^^ s.d
    else if i < 60 then ((s.b ||| s.c) &&& s.d) ||| (s.b &&& s.c)
    else s.b ^^^ s.c ^^^ s.d
  let k :=
    if i < 20 then 0x5A827999
    else if i < 40 then 0x6ED9EBA1
    else if i < 60 then 0x8F1BBCDC
    else 0xCA62C1D6
  let t := add32 (add32 (add32 (add32 (rotl32 s.a 5) f) s.e) (w.getD (i &&& 0xf) 0)) k
  { a := t, b := s.a, c := rotl32 s.b 30, d := s.c, e := s.d, w := w }

/-- The body of the `for len(p) >= chunk` loop of `blockGeneric` on one 64-byte chunk. -/
def sha1Block (h : List Nat) (p : List UInt8) : List Nat :=
  let w := (List.range 16).map (fun i => beWord p (i * 4))
  let s0 : Round :=
    { a := h.getD 0 0, b := h.getD 1 0, c := h.getD 2 0, d := h.getD 3 0, e := h.getD 4 0, w := w }
  let s := (List.range 80).foldl sha1Step s0
  [add32 (h.getD 0 0) s.a, add32 (h.getD 1 0) s.b, add32 (h.getD 2 0) s.c,
   add32 (h.getD 3 0) s.d, add32 (h.getD 4 0) s.e]

/-- Go `blockGeneric`: consume `p` in chunks of 64 bytes. `n` is the number of chunks. -/
def sha1Blocks : Nat → List Nat → List UInt8 → List Nat
  | 0, h, _ => h
  | n + 1, h, p => sha1Blocks n (sha1Block h (p.take 64)) (p.drop 64)

/-- The initial state set by `digest.Reset`. -/
def sha1Init : List Nat := [0x67452301, 0xEFCDAB89, 0x98BADCFE, 0x10325476, 0xC3D2E1F0]

/-- Go `binary.BigEndian.PutUint64`. -/
def putUint64 (v : Nat) : List UInt8 :=
  [UInt8.ofNat (v >>> 56), UInt8.ofNat (v >>> 48), UInt8.ofNat (v >>> 40), UInt8.ofNat (v >>> 32),
   UInt8.ofNat (v >>> 24), UInt8.ofNat (v >>> 16), UInt8.ofNat (v >>> 8), UInt8.ofNat v]

/-- Go `binary.BigEndian.PutUint32`. -/
def putUint32 (v : Nat) : List UInt8 :=
  [UInt8.ofNat (v >>> 24), UInt8.ofNat (v >>> 16), UInt8.ofNat (v >>> 8), UInt8.ofNat v]

/-- The padding `digest.checkSum` writes: `0x80`, zeros until the length is 56
modulo 64, then the message length in bits as a big-endian `uint64`. -/
def sha1Pad (len : Nat) : List UInt8 :=
  let t := if len % 64 < 56 then 56 - len % 64 else 64 + 56 - len % 64
  (0x80 :: List.replicate (t - 1) 0) ++ putUint64 ((len * 8) % 2 ^ 64)

/-- Go `sha1.Sum`: the 20-byte SHA-1 checksum of `data`. -/
def sha1Sum (data : List UInt8) : List UInt8 :=
  let msg := data ++ sha1Pad data.length
  let h := sha1Blocks (msg.length / 64) sha1Init msg
  putUint32 (h.getD 0 0) ++ putUint32 (h.getD 1 0) ++ putUint32 (h.getD 2 0) ++
    putUint32 (h.getD 3 0) ++ putUint32 (h.getD 4 0)

/-! ## Package `path` -/

/-- The `lazybuf` of `path.Clean` together with the variable `dotdot`: `out` is
the buffer contents `buf[:w]`, so `out.w` is `out.length`. -/
structure CleanState where
  out : GoString
  dotdot : Nat
deriving DecidableEq

/-- The loop `for out.w > dotdot && out.index(out.w) != '/' { out.w-- }`,
started at `w`; the result is the final `out.w`. -/
def backtrackLoop (out : GoString) (dotdot : Nat) : Nat → Nat
  | 0 => 0
  | w + 1 =>
    if dotdot < w + 1 ∧ out.getD (w + 1) 0 ≠ slash then backtrackLoop out dotdot w else w + 1

/-- The body of the loop `for r < n` of `path.Clean`, entered with `r < n`:
`c` is `path[r]` and `t` is `path[r+1:]`, so `r+1 == n` is `t = []` and
`path[r+1]` is the head of `t`. The result is `path[r:]` for the new `r`, and the
new buffer and `dotdot`. -/
def cleanStep (rooted : Bool) (c : UInt8) (t : GoString) (s : CleanState) :
    GoString × CleanState :=
  if c = slash then
    -- empty path element
    (t, s)
  else if c = dot ∧ (t = [] ∨ t.head? = some slash) then
    -- . element
    (t, s)
  else if c = dot ∧ t.head? = some dot ∧ (t.tail = [] ∨ t.tail.head? = some slash) then
    -- .. element: remove to last /
    if s.dotdot < s.out.length then
      -- can backtrack
      let w := backtrackLoop s.out s.dotdot (s.out.length - 1)
      (t.tail, { out := s.out.take w, dotdot := s.dotdot })
    else if rooted = false then
      -- cannot backtrack, but not rooted, so append .. element
      let o := (if 0 < s.out.length then s.out ++ [slash] else s.out) ++ [dot, dot]
      (t.tail, { out := o, dotdot := o.length })
    else
      (t.tail, s)
  else
    -- real path element: add slash if needed, then copy the element
    let o :=
      if (rooted = true ∧ s.out.length ≠ 1) ∨ (rooted = false ∧ s.out.length ≠ 0) then
        s.out ++ [slash]
      else s.out
    ((c :: t).dropWhile (fun b => b ≠ slash),
      { out := o ++ (c :: t).takeWhile (fun b => b ≠ slash), dotdot := s.dotdot })

/-- The loop `for r < n` of `path.Clean`; `rest` is `path[r:]`. Every iteration
consumes at least one byte, so `rest.length` iterations suffice. -/
def cleanLoop (rooted : Bool) : Nat → GoString → CleanState → CleanState
  | 0, _, s => s
  | _ + 1, [], s => s
  | fuel + 1, c :: t, s =>
    cleanLoop rooted fuel (cleanStep rooted c t s).1 (cleanStep rooted c t s).2

/-- Go `path.Clean`. -/
def Clean (path : GoString) : GoString :=
  match path with
  | [] => [dot]
  | c :: t =>
    let rooted : Bool := c = slash
    let s :=
      if rooted then cleanLoop rooted path.length t { out := [slash], dotdot := 1 }
      else cleanLoop rooted path.length path { out := [], dotdot := 0 }
    -- Turn empty string into "."
    if s.out.length = 0 then [dot] else s.out

/-- Go `path.Join`: the non-empty elements joined by slashes, then cleaned. -/
def Join (elem : List GoString) : GoString :=
  let size := (elem.map List.length).sum
  if size = 0 then []
  else
    let buf := elem.foldl
      (fun (buf : GoString) e =>
        if 0 < buf.length ∨ e ≠ [] then (if 0 < buf.length then buf ++ [slash] else buf) ++ e
        else buf) []
    Clean buf

/-- One more than `bytealg.LastIndexByteString(s, c)` restricted to `s[:k]`
(so `0` stands for the result `-1`). -/
def lastIndexEnd (s : GoString) (c : UInt8) : Nat → Nat
  | 0 => 0
  | i + 1 => if s.getD i 0 = c then i + 1 else lastIndexEnd s c i

/-- Go `path.Split`: `path[:i+1], path[i+1:]` for the index `i` of the final slash. -/
def Split (path : GoString) : GoString × GoString :=
  let k := lastIndexEnd path slash path.length
  (path.take k, path.drop k)

/-! ## `os.CreateTemp` (called by `ioutil.TempFile`) -/

/-- The digit loop of Go `itoa.Uitoa`; `buf` holds the digits produced so far. -/
def uitoaLoop : Nat → Nat → GoString → GoString
  | 0, _, buf => buf
  | fuel + 1, val, buf =>
    if 10 ≤ val then uitoaLoop fuel (val / 10) (UInt8.ofNat (48 + (val - val / 10 * 10)) :: buf)
    else UInt8.ofNat (48 + val) :: buf

/-- Go `itoa.Uitoa` on a `uint32` value (at most 10 digits). -/
def uitoa (val : Nat) : GoString :=
  if val = 0 then [48] else uitoaLoop 20 val []

/-- Go `os.joinPath`. -/
def joinPath (dir name : GoString) : GoString :=
  if 0 < dir.length ∧ dir.getLast? = some slash then dir ++ name else dir ++ [slash] ++ name

/-- Go `os.prefixAndSuffix`: split `pattern` at its final `'*'`; an error when the
pattern contains a path separator. -/
def prefixAndSuffix (pattern : GoString) : GoString × GoString × Bool :=
  if slash ∈ pattern then ([], [], true)
  else
    let k := lastIndexEnd pattern 42 pattern.length
    if k = 0 then (pattern, [], false) else (pattern.take (k - 1), pattern.drop k, false)

/-! ## Files and errors -/

/-- A Go `error`, identified with the text `err.Error()` returns. -/
structure Error where
  msg : GoString
deriving DecidableEq

/-- A regular file: its content and its permission bits. -/
structure File where
  data : List UInt8
  mode : Nat
deriving DecidableEq

/-- The file system: the regular file, if any, found under each path name.
Path names are compared as byte strings. -/
abbrev FS := GoString → Option File

/-- The file system without any file. -/
def emptyFS : FS := fun _ => none

/-- Replace what is found under the path `p`. -/
def fsSet (fs : FS) (p : GoString) (f : Option File) : FS :=
  fun q => if q = p then f else fs q

/-- The error `syscall.EEXIST`. -/
def errExist : Error := ⟨str "file exists"⟩

/-- The error `syscall.ENOENT`. -/
def errNotExist : Error := ⟨str "no such file or directory"⟩

/-- The error an invalid `CreateTemp` pattern gives. -/
def errPatternHasSeparator : Error := ⟨str "pattern contains path separator"⟩

/-- What the environment decides during one call of `saver`: the directory
`os.TempDir()` names, the random numbers drawn for temporary names, and which
system calls fail. A fault `none` lets the call proceed. -/
structure SysEnv where
  /-- The result of `os.TempDir()`. -/
  osTempDir : GoString
  /-- The value `runtime_rand()` yields at the given attempt of `CreateTemp`. -/
  rand : Nat → Nat
  /-- A failure of `OpenFile` at the given attempt, other than `EEXIST`. -/
  tempFault : Nat → Option Error
  /-- A failure of the write of the chunk with the given number to the temporary
  file, after the given number of bytes went through. -/
  writeFault : Nat → Option (Nat × Error)
  /-- A failure of `os.Rename`. -/
  renameFault : Option Error
  /-- A failure of `os.Open` in `moveFile`. -/
  mvOpenFault : Option Error
  /-- A failure of `os.Create` in `moveFile`. -/
  mvCreateFault : Option Error
  /-- A failure of `io.Copy` in `moveFile`, after the given number of bytes. -/
  mvCopyFault : Option (Nat × Error)
  /-- A failure of `os.Remove` in `moveFile`. -/
  mvRemoveFault : Option Error
  /-- A failure of `os.Chmod`. -/
  chmodFault : Option Error

/-- The loop of `os.CreateTemp`: `fuel` attempts are left (10000 at the start),
`tries` is the number already made. Each attempt opens `prefix + nextRandom() + suffix`
with `O_RDWR|O_CREATE|O_EXCL` and mode `0600`. The result is the new file system,
the name of the file created, and the error. -/
def createTempLoop (env : SysEnv) (pfx sfx : GoString) (fs : FS) :
    Nat → Nat → FS × GoString × Option Error
  | 0, _ => (fs, [], some errExist)
  | fuel + 1, tries =>
    let name := pfx ++ uitoa (env.rand tries % 2 ^ 32) ++ sfx
    match fs name with
    | some _ => createTempLoop env pfx sfx fs fuel (tries + 1)
    | none =>
      match env.tempFault tries with
      | some e => (fs, [], some e)
      | none => (fsSet fs name (some ⟨[], 0o600⟩), name, none)

/-- Go `ioutil.TempFile`, which is `os.CreateTemp`. The file handle returned is
represented by the name of the file, `temp.Name()`. -/
def TempFile (env : SysEnv) (fs : FS) (dir pattern : GoString) : FS × GoString × Option Error :=
  let dir := if dir = [] then env.osTempDir else dir
  match prefixAndSuffix pattern with
  | (_, _, true) => (fs, [], some errPatternHasSeparator)
  | (pfx, sfx, false) => createTempLoop env (joinPath dir pfx) sfx fs 10000 0

/-- A write of `p` through the open file `name`: the bytes go to the end of the file. -/
def fileWrite (fs : FS) (name : GoString) (p : List UInt8) : FS :=
  match fs name with
  | some f => fsSet fs name (some { f with data := f.data ++ p })
  | none => fs

/-- An `io.Reader`: the chunks successive calls of `Read` deliver, and how the
stream ends: `none` for `io.EOF`, `some e` for a read error `e`. -/
structure Reader where
  chunks : List (List UInt8)
  err : Option Error
deriving DecidableEq

/-- Everything the reader delivers. -/
def Reader.bytes (r : Reader) : List UInt8 := r.chunks.flatten

/-- The call `io.Copy(multi, r)` of `saver`, where `multi` is
`io.MultiWriter(hash, temp)`: every chunk read is written to `hash`, then to the
temporary file. `hash` is the data written to the hash so far (`hash.Write` never
fails) and `k` counts the writes. The result is the new file system, the data
hashed, and the error of `io.Copy`. -/
def ioCopy (env : SysEnv) (temp : GoString) :
    FS → List UInt8 → Nat → List (List UInt8) → Option Error → FS × List UInt8 × Option Error
  | fs, hash, _, [], rerr => (fs, hash, rerr)
  | fs, hash, k, ch :: rest, rerr =>
    if ch = [] then ioCopy env temp fs hash k rest rerr
    else
      match env.writeFault k with
      | some (n, e) => (fileWrite fs temp (ch.take n), hash ++ ch, some e)
      | none => ioCopy env temp (fileWrite fs temp ch) (hash ++ ch) (k + 1) rest rerr

/-- Go `os.Rename`. -/
def Rename (env : SysEnv) (fs : FS) (oldpath newpath : GoString) : FS × Option Error :=
  match env.renameFault with
  | some e => (fs, some e)
  | none =>
    match fs oldpath with
    | none => (fs, some errNotExist)
    | some f =>
      if oldpath = newpath then (fs, none)
      else (fsSet (fsSet fs newpath (some f)) oldpath none, none)

/-- Go `os.Chmod`. -/
def Chmod (env : SysEnv) (fs : FS) (name : GoString) (mode : Nat) : FS × Option Error :=
  match env.chmodFault with
  | some e => (fs, some e)
  | none =>
    match fs name with
    | none => (fs, some errNotExist)
    | some f => (fsSet fs name (some { f with mode := mode }), none)

/-- The call `fmt.Errorf(format + "%s", err)` for a format that ends in `%s`. -/
def errorf (text : String) (err : Error) : Error := ⟨str text ++ err.msg⟩

/-! ## `cass.go` -/

/-- Type `cass`. -/
structure cass where
  port : GoString
  fileStore : GoString
  urlBase : GoString
  tempDir : GoString
  userAgent : GoString

/-- Func `moveFile`. -/
def moveFile (env : SysEnv) (fs : FS) (sourcePath destPath : GoString) : FS × Option Error :=
  -- inputFile, err := os.Open(sourcePath)
  match (if fs sourcePath = none then some errNotExist else env.mvOpenFault) with
  | some err => (fs, some (errorf "Couldn't open source file: " err))
  | none =>
    -- outputFile, err := os.Create(destPath)
    match env.mvCreateFault with
    | some err => (fs, some (errorf "Couldn't open dest file: " err))
    | none =>
      let fs1 :=
        match fs destPath with
        | some f => fsSet fs destPath (some { f with data := [] })
        | none => fsSet fs destPath (some ⟨[], 0o666⟩)
      -- _, err = io.Copy(outputFile, inputFile)
      let input := match fs1 sourcePath with
        | some f => f.data
        | none => []
      match env.mvCopyFault with
      | some (n, err) =>
        (fileWrite fs1 destPath (input.take n), some (errorf "Writing to output file failed: " err))
      | none =>
        let fs2 := fileWrite fs1 destPath input
        -- err = os.Remove(sourcePath)
        match (if fs2 sourcePath = none then some errNotExist else env.mvRemoveFault) with
        | some err => (fs2, some (errorf "Failed removing original file: " err))
        | none => (fsSet fs2 sourcePath none, none)

/-- Method `saver`. -/
def saver (c : cass) (env : SysEnv) (fs : FS) (r : Reader) (filename : GoString) :
    FS × GoString × Option Error :=
  let ext := Ext filename
  match TempFile env fs c.tempDir (str "cass_") with
  | (fs1, _, some err) => (fs1, [], some err)
  | (fs1, temp, none) =>
    -- hash := sha1.New(); multi := io.MultiWriter(hash, temp); _, err = io.Copy(multi, r)
    match ioCopy env temp fs1 [] 0 r.chunks r.err with
    | (fs2, _, some err) => (fs2, [], some err)
    | (fs2, hash, none) =>
      let destinationFilename := sprintfXS (sha1Sum hash) ext
      let destination := Join [c.fileStore, destinationFilename]
      let old := temp
      match Rename env fs2 old destination with
      | (fs3, none) => ((Chmod env fs3 destination 0o644).1, destinationFilename, none)
      | (fs3, some _) =>
        match moveFile env fs3 old destination with
        | (fs4, some err) => (fs4, [], some err)
        | (fs4, none) => ((Chmod env fs4 destination 0o644).1, destinationFilename, none)

/-! ## The HTTP side -/

/-- An `http.ResponseWriter`: the status code, `none` until the header is
written, and the body written so far. Header fields are not represented. -/
structure ResponseWriter where
  status : Option Nat
  body : GoString
deriving DecidableEq

/-- A response writer nothing was written to. -/
def freshWriter : ResponseWriter := ⟨none, []⟩

/-- Method `WriteHeader`: the first status code stands. -/
def writeHeader (w : ResponseWriter) (code : Nat) : ResponseWriter :=
  match w.status with
  | some _ => w
  | none => { w with status := some code }

/-- Method `Write`: an implicit `WriteHeader(200)` unless the header is written. -/
def write (w : ResponseWriter) (p : GoString) : ResponseWriter :=
  let w1 := writeHeader w 200
  { w1 with body := w1.body ++ p }

/-- Go `http.Error`: `w.WriteHeader(code)` followed by `fmt.Fprintln(w, error)`. -/
def httpError (w : ResponseWriter) (error : GoString) (code : Nat) : ResponseWriter :=
  write (writeHeader w code) (error ++ [10])

/-- The status code the client receives: 200 when the handler never set one. -/
def ResponseWriter.code (w : ResponseWriter) : Nat := w.status.getD 200

/-- The network as `httpGet` sees it. -/
structure NetEnv where
  /-- The error of `http.NewRequest("GET", link, nil)`. -/
  newRequest : GoString → Option Error
  /-- The outcome of `client.Do(req)` for a link and a User-Agent: the response
  body or an error. -/
  clientDo : GoString → GoString → Except Error Reader

/-- Type `multipart.FileHeader`. -/
structure FileHeader where
  Filename : GoString

/-- The part of an `http.Request` the handlers look at. -/
structure Request where
  /-- Method `FormValue`. -/
  FormValue : GoString → GoString
  /-- Method `FormFile`: the file, the header and the error. -/
  FormFile : GoString → Option Reader × Option FileHeader × Option Error

/-- What a handler leaves behind: the file system, the response written, and
whether the handler ended in a run-time panic instead of returning. -/
structure HandlerResult where
  fs : FS
  w : ResponseWriter
  panicked : Bool

/-- Method `httpGet`. The result is the pair `(io.ReadCloser, error)`; the
stream `none` is the nil interface value. -/
def httpGet (c : cass) (net : NetEnv) (link : GoString) : Option Reader × Option Error :=
  match net.newRequest link with
  | some err => (none, some err)
  | none =>
    match net.clientDo link c.userAgent with
    | .error err => (none, some err)
    | .ok body => (some body, none)

/-- Method `linkReceiver`. Evaluating `fileStream.Close` for the `defer` statement
panics when `fileStream` is the nil interface value. -/
def linkReceiver (c : cass) (net : NetEnv) (env : SysEnv) (fs : FS) (w : ResponseWriter)
    (r : Request) : HandlerResult :=
  let link := r.FormValue (str "url")
  let linkFilename := r.FormValue (str "filename")
  match httpGet c net link with
  | (none, _) => { fs := fs, w := w, panicked := true }
  | (some fileStream, err) =>
    let w1 := match err with
      | some e => httpError w e.msg 500
      | none => w
    match saver c env fs fileStream linkFilename with
    | (fs1, filename, err) =>
      let w2 := match err with
        | some e => httpError w1 e.msg 500
        | none => w1
      { fs := fs1, w := write w2 (c.urlBase ++ filename), panicked := false }

/-- Method `fileReceiver`. Evaluating `file.Close` for the `defer` statement
panics when `file` is the nil interface value, and so does `header.Filename`
for a nil `header`. -/
def fileReceiver (c : cass) (env : SysEnv) (fs : FS) (w : ResponseWriter) (r : Request) :
    HandlerResult :=
  match r.FormFile (str "file") with
  | (none, _, _) => { fs := fs, w := w, panicked := true }
  | (some file, header, err) =>
    let w1 := match err with
      | some e => httpError w e.msg 500
      | none => w
    match header with
    | none => { fs := fs, w := w1, panicked := true }
    | some header =>
      match saver c env fs file header.Filename with
      | (fs1, filename, err) =>
        let w2 := match err with
          | some e => httpError w1 e.msg 500
          | none => w1
        { fs := fs1, w := write w2 (c.urlBase ++ filename), panicked := false }

/-! ## Vocabulary of the properties -/

/-- A byte that is one of `0123456789abcdef`. -/
def isLowerHex (b : UInt8) : Prop :=
  (48 ≤ b.toNat ∧ b.toNat ≤ 57) ∨ (97 ≤ b.toNat ∧ b.toNat ≤ 102)

instance (b : UInt8) : Decidable (isLowerHex b) := by unfold isLowerHex; infer_instance

/-- In the words of the specification: the substring of `s` from its last `'.'`
to its end, including the dot; empty when `s` contains no `'.'`. -/
def lastDotSuffix : GoString → GoString
  | [] => []
  | c :: t => if dot ∈ t then lastDotSuffix t else if c = dot then c :: t else []

/-- The final slash-separated element of `s`: what follows its last `'/'`, and
all of `s` when it contains no `'/'`. -/
def lastElement : GoString → GoString
  | [] => []
  | c :: t => if slash ∈ t then lastElement t else if c = slash then t else c :: t

/-- The loop of `path.Ext` seen from the end of the string: `rev` holds the
bytes not yet inspected, last one first, and `suf` those already passed. -/
def extScan : GoString → GoString → GoString
  | [], _ => []
  | c :: r, suf => if c = slash then [] else if c = dot then c :: suf else extScan r (c :: suf)

/-- A name `saver` can publish under: the hexadecimal rendering of a 20-byte
digest followed by an extension without `'/'`. -/
def isPublicName (n : GoString) : Prop :=
  ∃ d e : GoString, d.length = 20 ∧ slash ∉ e ∧ n = sprintfXS d e

/-- The destination `saver` computes for a stream delivering `bytes` under the
original file name `filename`. -/
def destinationOf (c : cass) (bytes : List UInt8) (filename : GoString) : GoString :=
  Join [c.fileStore, sprintfXS (sha1Sum bytes) (Ext filename)]

/-- The content of the file found under the path `p`, if there is one. -/
def contentAt (fs : FS) (p : GoString) : Option (List UInt8) := (fs p).map File.data

/-- One call of `saver`: what the environment does during the call, the stream
and the original file name. -/
structure SaverCall where
  env : SysEnv
  r : Reader
  filename : GoString

/-- The file system after a sequence of `saver` calls, one after the other. -/
def runSavers (c : cass) : FS → List SaverCall → FS
  | fs, [] => fs
  | fs, k :: ks => runSavers c (saver c k.env fs k.r k.filename).1 ks

/-- Every file under a published name holds content whose SHA-1 is the digest in
its name. -/
def addressedByContent (c : cass) (fs : FS) : Prop :=
  ∀ (d e B : List UInt8), d.length = 20 → slash ∉ e →
    contentAt fs (Join [c.fileStore, sprintfXS d e]) = some B → sha1Sum B = d

/-! ## Concrete inputs -/

/-- An environment in which no system call fails and every temporary name asked
for is `cass_7`. -/
def noFaults : SysEnv where
  osTempDir := str "/tmp"
  rand := fun _ => 7
  tempFault := fun _ => none
  writeFault := fun _ => none
  renameFault := none
  mvOpenFault := none
  mvCreateFault := none
  mvCopyFault := none
  mvRemoveFault := none
  chmodFault := none

/-- A configuration with the store in `/srv/c` and temporary files in `./tmp`. -/
def exampleCass : cass where
  port := str "127.0.0.1:8000"
  fileStore := str "/srv/c"
  urlBase := str "https://example.org/c/"
  tempDir := str "./tmp"
  userAgent := str "cass"

/-- A stream that delivers `hello` in two reads and then ends. -/
def helloReader : Reader := ⟨[str "he", str "llo"], none⟩

/-- A stream without any byte. -/
def emptyReader : Reader := ⟨[], none⟩

/-- An upload of the file `hello.txt` with content `hello`. -/
def helloUpload : Request where
  FormValue := fun _ => []
  FormFile := fun _ => (some helloReader, some ⟨str "hello.txt"⟩, none)

/-- A request to `/down` for `http://unreachable.invalid/a.png`. -/
def unreachableLink : Request where
  FormValue := fun k =>
    if k = str "url" then str "http://unreachable.invalid/a.png"
    else if k = str "filename" then str "a.png" else []
  FormFile := fun _ => (none, none, some ⟨str "http: no such file"⟩)

/-- A request to `/down` for `http://example.org/hello.txt`. -/
def helloLink : Request where
  FormValue := fun k =>
    if k = str "url" then str "http://example.org/hello.txt"
    else if k = str "filename" then str "hello.txt" else []
  FormFile := fun _ => (none, none, some ⟨str "http: no such file"⟩)

/-- A network on which every connection is refused. -/
def unreachableNet : NetEnv where
  newRequest := fun _ => none
  clientDo := fun _ _ => .error ⟨str "dial tcp: connect: connection refused"⟩

/-- A network on which every link yields the body `hello`. -/
def helloNet : NetEnv where
  newRequest := fun _ => none
  clientDo := fun _ _ => .ok helloReader

/-- An environment in which the temporary file cannot be created. -/
def noTempDir : SysEnv :=
  { noFaults with tempFault := fun _ => some ⟨str "open ./tmp/cass_7: no such file or directory"⟩ }

/-- An environment in which `os.Rename` fails and the copy of the `moveFile`
fallback fails after two bytes. -/
def brokenFallback : SysEnv :=
  { noFaults with
    renameFault := some ⟨str "invalid cross-device link"⟩
    mvCopyFault := some (2, ⟨str "no space left on device"⟩) }

/-- A stream that delivers `he` and then fails. -/
def failingReader : Reader := ⟨[str "he"], some ⟨str "unexpected EOF"⟩⟩

/-- An environment in which `os.Rename` fails and the `moveFile` fallback works. -/
def crossDevice : SysEnv :=
  { noFaults with renameFault := some ⟨str "invalid cross-device link"⟩ }

/-- Storing `hello` as `hello.txt` without any fault. -/
def storeHello : SaverCall := ⟨noFaults, helloReader, str "hello.txt"⟩

/-- Storing `hello` as `hello.txt` through the `moveFile` fallback. -/
def storeHelloAcross : SaverCall := ⟨crossDevice, helloReader, str "hello.txt"⟩

/-- Storing `hello` as `hello.txt` with a fallback that fails while copying. -/
def storeHelloBroken : SaverCall := ⟨brokenFallback, helloReader, str "hello.txt"⟩

end Cass


/-! # Properties -/

namespace Cass

/-! ## Facts about the hexadecimal rendering -/

theorem hexDigit_toNat (n : Nat) (h : n < 16) :
    (hexDigit n).toNat = if n < 10 then 48 + n else 87 + n := by
  unfold hexDigit
  split
  · exact UInt8.toNat_ofNat_of_lt (by simp only [UInt8.size]; omega)
  · exact UInt8.toNat_ofNat_of_lt (by simp only [UInt8.size]; omega)

theorem hexDigit_isLowerHex (n : Nat) (h : n < 16) : isLowerHex (hexDigit n) := by
  unfold isLowerHex
  rw [hexDigit_toNat n h]
  split <;> omega

theorem hexDigit_inj (n m : Nat) (hn : n < 16) (hm : m < 16) (h : hexDigit n = hexDigit m) :
    n = m := by
  have h1 := congrArg UInt8.toNat h
  rw [hexDigit_toNat n hn, hexDigit_toNat m hm] at h1
  split at h1 <;> split at h1 <;> omega

theorem byte_hi_lt (b : UInt8) : b.toNat >>> 4 < 16 := by
  have := UInt8.toNat_lt b
  rw [Nat.shiftRight_eq_div_pow]
  omega

theorem byte_lo_lt (b : UInt8) : b.toNat &&& 0xF < 16 := by
  have : b.toNat &&& 0xF = b.toNat % 16 := Nat.and_pow_two_sub_one_eq_mod b.toNat 4
  omega

theorem byte_eq_of_nibbles (a b : UInt8) (hhi : a.toNat >>> 4 = b.toNat >>> 4)
    (hlo : a.toNat &&& 0xF = b.toNat &&& 0xF) : a = b := by
  apply UInt8.ext
  have ha : a.toNat &&& 0xF = a.toNat % 16 := Nat.and_pow_two_sub_one_eq_mod a.toNat 4
  have hb : b.toNat &&& 0xF = b.toNat % 16 := Nat.and_pow_two_sub_one_eq_mod b.toNat 4
  rw [Nat.shiftRight_eq_div_pow, Nat.shiftRight_eq_div_pow] at hhi
  omega

theorem hexEncode_length (bs : List UInt8) : (hexEncode bs).length = 2 * bs.length := by
  induction bs with
  | nil => rfl
  | cons b bs ih => simp [hexEncode, ih]; omega

theorem hexEncode_isLowerHex (bs : List UInt8) : ∀ x ∈ hexEncode bs, isLowerHex x := by
  induction bs with
  | nil => simp [hexEncode]
  | cons b bs ih =>
    intro x hx
    simp only [hexEncode, List.mem_cons] at hx
    rcases hx with rfl | rfl | hx
    · exact hexDigit_isLowerHex _ (byte_hi_lt b)
    · exact hexDigit_isLowerHex _ (byte_lo_lt b)
    · exact ih x hx

theorem hexEncode_injective : ∀ (xs ys : List UInt8), hexEncode xs = hexEncode ys → xs = ys
  | [], [], _ => rfl
  | [], _ :: _, h => by simp [hexEncode] at h
  | _ :: _, [], h => by simp [hexEncode] at h
  | x :: xs, y :: ys, h => by
    simp only [hexEncode, List.cons.injEq] at h
    obtain ⟨h1, h2, h3⟩ := h
    have e1 := hexDigit_inj _ _ (byte_hi_lt x) (byte_hi_lt y) h1
    have e2 := hexDigit_inj _ _ (byte_lo_lt x) (byte_lo_lt y) h2
    rw [byte_eq_of_nibbles x y e1 e2, hexEncode_injective xs ys h3]

theorem isLowerHex_ne_slash (b : UInt8) (h : isLowerHex b) : b ≠ slash := by
  rintro rfl
  revert h
  decide

theorem isLowerHex_ne_dot (b : UInt8) (h : isLowerHex b) : b ≠ dot := by
  rintro rfl
  revert h
  decide

theorem sha1Sum_length (data : List UInt8) : (sha1Sum data).length = 20 := by
  simp [sha1Sum, putUint32]

/-! ## Facts about `path.Ext` -/

theorem extLoop_append (pre suf : GoString) :
    extLoop (pre ++ suf) pre.length = extScan pre.reverse suf := by
  induction pre using List.reverseRecOn generalizing suf with
  | nil => simp [extLoop, extScan]
  | append_singleton pre c ih =>
    have hget : (pre ++ [c] ++ suf).getD pre.length 0 = c := by
      simp [List.getD_eq_getElem?_getD, List.getElem_append_right]
    have hlen : (pre ++ [c]).length = pre.length + 1 := by simp
    rw [hlen, extLoop, hget]
    simp only [List.reverse_append, List.reverse_cons, List.reverse_nil, List.nil_append,
      List.singleton_append, extScan]
    by_cases h1 : c = slash
    · simp [h1]
    · by_cases h2 : c = dot
      · simp [h1, h2]
      · simp only [h1, h2, if_false]
        have := ih (c :: suf)
        simpa using this

theorem Ext_eq_extScan (path : GoString) : Ext path = extScan path.reverse [] := by
  have := extLoop_append path []
  simpa [Ext] using this

theorem lastElement_of_not_mem (s : GoString) (h : slash ∉ s) : lastElement s = s := by
  cases s with
  | nil => rfl
  | cons c t =>
    simp only [List.mem_cons, not_or] at h
    simp [lastElement, h.2, Ne.symm h.1]

theorem lastElement_append (a b : GoString) (h : slash ∉ b) :
    lastElement (a ++ b) = lastElement a ++ b := by
  induction a with
  | nil => simp [lastElement_of_not_mem b h, lastElement]
  | cons c t ih =>
    simp only [List.cons_append, lastElement, List.mem_append, h, or_false]
    by_cases h1 : slash ∈ t
    · simp [h1, ih]
    · by_cases h2 : c = slash <;> simp [h1, h2, h]

theorem lastElement_append_slash (a b : GoString) (h : slash ∉ b) :
    lastElement (a ++ slash :: b) = b := by
  induction a with
  | nil => simp [lastElement, h]
  | cons c t ih => simp [lastElement, ih]

theorem lastDotSuffix_of_not_mem (s : GoString) (h : dot ∉ s) : lastDotSuffix s = [] := by
  cases s with
  | nil => rfl
  | cons c t =>
    simp only [List.mem_cons, not_or] at h
    simp [lastDotSuffix, h.2, Ne.symm h.1]

theorem lastDotSuffix_append_dot (a b : GoString) (h : dot ∉ b) :
    lastDotSuffix (a ++ dot :: b) = dot :: b := by
  induction a with
  | nil => simp [lastDotSuffix, h]
  | cons c t ih => simp [lastDotSuffix, ih]

theorem extScan_eq (rev suf : GoString) (h1 : slash ∉ suf) (h2 : dot ∉ suf) :
    extScan rev suf = lastDotSuffix (lastElement (rev.reverse ++ suf)) := by
  induction rev generalizing suf with
  | nil => simp [extScan, lastElement_of_not_mem suf h1, lastDotSuffix_of_not_mem suf h2]
  | cons c r ih =>
    simp only [extScan, List.reverse_cons, List.append_assoc, List.singleton_append]
    by_cases hc1 : c = slash
    · subst hc1
      simp [lastElement_append_slash _ _ h1, lastDotSuffix_of_not_mem suf h2]
    · by_cases hc2 : c = dot
      · subst hc2
        have hs : slash ∉ dot :: suf := by simp [h1, hc1]; exact fun h => hc1 h.symm
        rw [lastElement_append _ _ hs, lastDotSuffix_append_dot _ _ h2]
        simp [hc1]
      · simp only [hc1, hc2, if_false]
        apply ih
        · simp [h1]; exact fun h => hc1 h.symm
        · simp [h2]; exact fun h => hc2 h.symm

theorem Ext_eq_spec (path : GoString) : Ext path = lastDotSuffix (lastElement path) := by
  rw [Ext_eq_extScan, extScan_eq _ _ (by simp) (by simp)]
  simp

theorem extScan_no_slash (rev suf : GoString) (h : slash ∉ suf) : slash ∉ extScan rev suf := by
  induction rev generalizing suf with
  | nil => simp [extScan]
  | cons c r ih =>
    simp only [extScan]
    by_cases hc1 : c = slash
    · simp [hc1]
    · by_cases hc2 : c = dot
      · simp [hc1, hc2, h]; decide
      · simp only [hc1, hc2, if_false]
        apply ih
        simp [h]; exact fun h => hc1 h.symm

theorem Ext_no_slash (path : GoString) : slash ∉ Ext path := by
  rw [Ext_eq_extScan]
  exact extScan_no_slash _ _ (by simp)

/-! ## Facts about `path.Clean` and `path.Join` -/

theorem dropWhile_length_le (p : UInt8 → Bool) (l : GoString) :
    (l.dropWhile p).length ≤ l.length := by
  induction l with
  | nil => simp
  | cons c t ih =>
    rw [List.dropWhile_cons]
    split
    · simp only [List.length_cons]; omega
    · exact Nat.le_refl _

theorem cleanStep_length (rooted : Bool) (c : UInt8) (t : GoString) (s : CleanState) :
    (cleanStep rooted c t s).1.length ≤ t.length := by
  have hd : c ≠ slash → ((c :: t).dropWhile (fun b => b ≠ slash)).length ≤ t.length := by
    intro h
    rw [List.dropWhile_cons]
    simp only [ne_eq, h, not_false_eq_true, decide_True, if_true]
    exact dropWhile_length_le _ _
  unfold cleanStep
  split_ifs with g1 <;> simp only [List.length_tail] <;> first
    | omega
    | exact hd g1

theorem cleanLoop_nil (rooted : Bool) (fuel : Nat) (s : CleanState) :
    cleanLoop rooted fuel [] s = s := by
  cases fuel <;> rfl

theorem cleanLoop_fuel (rooted : Bool) :
    ∀ (f1 f2 : Nat) (rest : GoString) (s : CleanState), rest.length ≤ f1 → rest.length ≤ f2 →
      cleanLoop rooted f1 rest s = cleanLoop rooted f2 rest s := by
  intro f1
  induction f1 with
  | zero =>
    intro f2 rest s h1 _
    have : rest = [] := List.length_eq_zero.mp (by omega)
    subst this
    rw [cleanLoop_nil, cleanLoop_nil]
  | succ f1 ih =>
    intro f2 rest s h1 h2
    cases rest with
    | nil => rw [cleanLoop_nil, cleanLoop_nil]
    | cons c t =>
      cases f2 with
      | zero => simp at h2
      | succ f2 =>
        simp only [cleanLoop]
        have := cleanStep_length rooted c t s
        simp only [List.length_cons] at h1 h2
        exact ih f2 _ _ (by omega) (by omega)

theorem takeWhile_append_slash (a b : GoString) :
    (a ++ slash :: b).takeWhile (fun x => x ≠ slash) = a.takeWhile (fun x => x ≠ slash) := by
  induction a with
  | nil => simp
  | cons c t ih =>
    simp only [List.cons_append, List.takeWhile_cons]
    split
    · rw [ih]
    · rfl

theorem dropWhile_append_slash (a b : GoString) :
    (a ++ slash :: b).dropWhile (fun x => x ≠ slash) =
      a.dropWhile (fun x => x ≠ slash) ++ slash :: b := by
  induction a with
  | nil => simp
  | cons c t ih =>
    simp only [List.cons_append, List.dropWhile_cons]
    split
    · rw [ih]
    · rfl

theorem cleanStep_append_slash (rooted : Bool) (c : UInt8) (t b : GoString) (s : CleanState) :
    cleanStep rooted c (t ++ slash :: b) s =
      ((cleanStep rooted c t s).1 ++ slash :: b, (cleanStep rooted c t s).2) := by
  have hsd : slash ≠ dot := by decide
  have h1 : (t ++ slash :: b = [] ∨ (t ++ slash :: b).head? = some slash) ↔
      (t = [] ∨ t.head? = some slash) := by
    cases t <;> simp
  have h2 : ((t ++ slash :: b).head? = some dot ∧
      ((t ++ slash :: b).tail = [] ∨ (t ++ slash :: b).tail.head? = some slash)) ↔
      (t.head? = some dot ∧ (t.tail = [] ∨ t.tail.head? = some slash)) := by
    rcases t with _ | ⟨x, _ | ⟨y, t3⟩⟩ <;> simp [hsd]
  have h3 : t.head? = some dot → (t ++ slash :: b).tail = t.tail ++ slash :: b := by
    cases t <;> simp
  have h4 := takeWhile_append_slash (c :: t) b
  have h5 := dropWhile_append_slash (c :: t) b
  rw [List.cons_append] at h4 h5
  unfold cleanStep
  simp only [h1, h2, h4, h5]
  split_ifs with g1 g2 g3 g4 g5 <;> first
    | rfl
    | simp only [h3 g3.2.1]

theorem cleanLoop_append_slash (rooted : Bool) (b : GoString) :
    ∀ (n : Nat) (a : GoString) (s : CleanState) (f1 f2 f3 : Nat), a.length ≤ n →
      (a ++ slash :: b).length ≤ f1 → a.length ≤ f2 → (slash :: b).length ≤ f3 →
      cleanLoop rooted f1 (a ++ slash :: b) s =
        cleanLoop rooted f3 (slash :: b) (cleanLoop rooted f2 a s) := by
  intro n
  induction n with
  | zero =>
    intro a s f1 f2 f3 hn h1 _ h3
    have : a = [] := List.length_eq_zero.mp (by omega)
    subst this
    rw [cleanLoop_nil]
    exact cleanLoop_fuel rooted _ _ _ _ h1 h3
  | succ n ih =>
    intro a s f1 f2 f3 hn h1 h2 h3
    cases a with
    | nil =>
      rw [cleanLoop_nil]
      exact cleanLoop_fuel rooted _ _ _ _ h1 h3
    | cons c t =>
      cases f1 with
      | zero => simp at h1
      | succ f1 =>
        cases f2 with
        | zero => simp at h2
        | succ f2 =>
          rw [List.cons_append, cleanLoop, cleanLoop, cleanStep_append_slash]
          have := cleanStep_length rooted c t s
          simp only [List.length_cons, List.length_append] at hn h1 h2 h3
          apply ih _ _ _ _ _ (by omega) _ (by omega) (by simpa using h3)
          simp only [List.length_cons, List.length_append]
          omega

theorem backtrackLoop_ge (out : GoString) (dotdot : Nat) :
    ∀ w : Nat, dotdot ≤ w → dotdot ≤ backtrackLoop out dotdot w := by
  intro w
  induction w with
  | zero => intro h; simpa [backtrackLoop] using h
  | succ w ih =>
    intro h
    rw [backtrackLoop]
    split
    · rename_i hc
      exact ih (by omega)
    · exact h

theorem cleanStep_rooted (c : UInt8) (t : GoString) (s : CleanState) (hd : s.dotdot = 1)
    (hh : s.out.head? = some slash) :
    (cleanStep true c t s).2.dotdot = 1 ∧ (cleanStep true c t s).2.out.head? = some slash := by
  have hne : s.out ≠ [] := by intro h; simp [h] at hh
  unfold cleanStep
  split_ifs with g1 g2 g3 g4 g5 g6 <;> simp_all
  · have := backtrackLoop_ge s.out 1 (s.out.length - 1) (by omega)
    cases hs : s.out with
    | nil => exact absurd hs hne
    | cons x xs =>
      rw [hs] at hh this
      have hw : backtrackLoop (x :: xs) 1 ((x :: xs).length - 1) =
          (backtrackLoop (x :: xs) 1 ((x :: xs).length - 1) - 1) + 1 := by omega
      rw [hw, List.take_succ_cons]
      simpa using hh

theorem cleanLoop_rooted (fuel : Nat) (rest : GoString) (s : CleanState) (hd : s.dotdot = 1)
    (hh : s.out.head? = some slash) :
    (cleanLoop true fuel rest s).out.head? = some slash := by
  induction fuel generalizing rest s with
  | zero => simpa [cleanLoop] using hh
  | succ fuel ih =>
    cases rest with
    | nil => simpa [cleanLoop] using hh
    | cons c t =>
      rw [cleanLoop]
      have := cleanStep_rooted c t s hd hh
      exact ih _ _ this.1 this.2

/-- The buffer after the separator a new path element needs. -/
theorem cleanLoop_last_element (rooted : Bool) (c : UInt8) (t : GoString) (s : CleanState)
    (fuel : Nat) (hf : (slash :: c :: t).length ≤ fuel) (hs : slash ∉ c :: t) (hc : c ≠ dot) :
    (cleanLoop rooted fuel (slash :: c :: t) s).out =
      (if (rooted = true ∧ s.out.length ≠ 1) ∨ (rooted = false ∧ s.out.length ≠ 0) then
        s.out ++ [slash] else s.out) ++ c :: t := by
  have hc1 : c ≠ slash := by
    intro h; apply hs; simp [h]
  have htw : (c :: t).takeWhile (fun b => b ≠ slash) = c :: t := by
    rw [List.takeWhile_eq_self_iff]
    intro x hx
    have : x ≠ slash := by rintro rfl; exact hs hx
    simpa using this
  have hdw : (c :: t).dropWhile (fun b => b ≠ slash) = [] := by
    rw [List.dropWhile_eq_nil_iff]
    intro x hx
    have : x ≠ slash := by rintro rfl; exact hs hx
    simpa using this
  obtain ⟨f, rfl⟩ : ∃ f, fuel = f + 2 := ⟨fuel - 2, by simp at hf; omega⟩
  have e1 : cleanStep rooted slash (c :: t) s = (c :: t, s) := by simp [cleanStep]
  rw [cleanLoop, e1, cleanLoop]
  have e2 : cleanStep rooted c t s = ([], CleanState.mk ((if (rooted = true ∧ s.out.length ≠ 1) ∨
      (rooted = false ∧ s.out.length ≠ 0) then s.out ++ [slash] else s.out) ++ c :: t)
      s.dotdot) := by
    unfold cleanStep
    simp only [hc1, hc, false_and, if_false, htw, hdw]
  rw [e2, cleanLoop_nil]

theorem Clean_plain (c : UInt8) (t : GoString) (hs : slash ∉ c :: t) (hc : c ≠ dot) :
    Clean (c :: t) = c :: t := by
  have hc1 : c ≠ slash := by
    intro h; apply hs; simp [h]
  have h := cleanLoop_last_element false c t ⟨[], 0⟩ ((c :: t).length + 1) (by simp) hs hc
  have e1 : cleanStep false slash (c :: t) ⟨[], 0⟩ = (c :: t, ⟨[], 0⟩) := by simp [cleanStep]
  rw [cleanLoop, e1] at h
  simp only [Clean, hc1, decide_False, Bool.false_eq_true, if_false]
  rw [h]
  simp

/-- The shape of `path.Join(dir, name)` for a name that is a single path
element: the name directly below the cleaned directory. -/
theorem Join_child (d : GoString) (c : UInt8) (t : GoString) (hs : slash ∉ c :: t)
    (hc : c ≠ dot) :
    (Clean d = [dot] ∧ Join [d, c :: t] = c :: t) ∨
    (Clean d = [slash] ∧ Join [d, c :: t] = slash :: c :: t) ∨
    (Join [d, c :: t] = Clean d ++ slash :: c :: t) := by
  cases d with
  | nil =>
    left
    refine ⟨rfl, ?_⟩
    simp [Join, Clean_plain c t hs hc]
  | cons c0 t0 =>
    have hj : Join [c0 :: t0, c :: t] = Clean (c0 :: (t0 ++ slash :: c :: t)) := by
      simp [Join]
    rw [hj]
    by_cases hr : c0 = slash
    · -- rooted
      subst hr
      have hsplit := cleanLoop_append_slash true (c :: t) t0.length t0 ⟨[slash], 1⟩
        (slash :: (t0 ++ slash :: c :: t)).length (slash :: t0).length
        (slash :: c :: t).length (Nat.le_refl _) (by simp) (by simp) (Nat.le_refl _)
      have hinv := cleanLoop_rooted (slash :: t0).length t0 ⟨[slash], 1⟩ rfl rfl
      have hlast := cleanLoop_last_element true c t
        (cleanLoop true (slash :: t0).length t0 ⟨[slash], 1⟩) (slash :: c :: t).length
        (Nat.le_refl _) hs hc
      have hfull : Clean (slash :: (t0 ++ slash :: c :: t)) =
          (cleanLoop true (slash :: (t0 ++ slash :: c :: t)).length (t0 ++ slash :: c :: t)
            ⟨[slash], 1⟩).out := by
        simp only [Clean, decide_True, if_true]
        rw [hsplit, hlast]
        simp
      have hd : Clean (slash :: t0) = (cleanLoop true (slash :: t0).length t0 ⟨[slash], 1⟩).out := by
        simp only [Clean, decide_True, if_true]
        generalize (cleanLoop true (slash :: t0).length t0 ⟨[slash], 1⟩).out = o at hinv
        cases o with
        | nil => simp at hinv
        | cons x xs => simp
      rw [hfull, hsplit, hlast, hd]
      generalize (cleanLoop true (slash :: t0).length t0 ⟨[slash], 1⟩).out = o at hinv
      cases o with
      | nil => simp at hinv
      | cons x xs =>
        simp only [List.head?_cons, Option.some.injEq] at hinv
        subst hinv
        cases xs with
        | nil => right; left; simp
        | cons y ys => right; right; simp
    · -- not rooted
      have hsplit := cleanLoop_append_slash false (c :: t) (c0 :: t0).length (c0 :: t0) ⟨[], 0⟩
        (c0 :: (t0 ++ slash :: c :: t)).length (c0 :: t0).length
        (slash :: c :: t).length (Nat.le_refl _) (by simp) (by simp) (Nat.le_refl _)
      have hlast := cleanLoop_last_element false c t
        (cleanLoop false (c0 :: t0).length (c0 :: t0) ⟨[], 0⟩) (slash :: c :: t).length
        (Nat.le_refl _) hs hc
      rw [List.cons_append] at hsplit
      have hfull : Clean (c0 :: (t0 ++ slash :: c :: t)) =
          (cleanLoop false (c0 :: (t0 ++ slash :: c :: t)).length (c0 :: (t0 ++ slash :: c :: t))
            ⟨[], 0⟩).out := by
        simp only [Clean, hr, decide_False, Bool.false_eq_true, if_false]
        rw [hsplit, hlast]
        simp
      have hd : Clean (c0 :: t0) =
          if (cleanLoop false (c0 :: t0).length (c0 :: t0) ⟨[], 0⟩).out.length = 0 then [dot]
          else (cleanLoop false (c0 :: t0).length (c0 :: t0) ⟨[], 0⟩).out := by
        simp only [Clean, hr, decide_False, Bool.false_eq_true, if_false]
      rw [hfull, hsplit, hlast, hd]
      generalize (cleanLoop false (c0 :: t0).length (c0 :: t0) ⟨[], 0⟩).out = o
      cases o with
      | nil => left; simp
      | cons x xs => right; right; simp

theorem lastIndexEnd_append (pre suf : GoString) (h : slash ∉ suf) :
    (pre ++ suf).drop (lastIndexEnd (pre ++ suf) slash pre.length) = lastElement (pre ++ suf) := by
  induction pre using List.reverseRecOn generalizing suf with
  | nil => simp [lastIndexEnd, lastElement_of_not_mem suf h]
  | append_singleton pre c ih =>
    have hget : (pre ++ [c] ++ suf).getD pre.length 0 = c := by
      simp [List.getD_eq_getElem?_getD, List.getElem_append_right]
    have hlen : (pre ++ [c]).length = pre.length + 1 := by simp
    rw [hlen, lastIndexEnd, hget]
    by_cases h1 : c = slash
    · subst h1
      simp only [if_true, List.append_assoc, List.singleton_append]
      rw [lastElement_append_slash _ _ h]
      have : pre.length + 1 = (pre ++ [slash]).length := by simp
      rw [← List.singleton_append, ← List.append_assoc, this, List.drop_left]
    · simp only [h1, if_false]
      have := ih (c :: suf) (by simp [h]; exact fun e => h1 e.symm)
      simpa using this

theorem Split_snd (path : GoString) : (Split path).2 = lastElement path := by
  have := lastIndexEnd_append path [] (by simp)
  simpa [Split] using this

/-! ## Facts about temporary files -/

theorem lastElement_Join (d : GoString) (c : UInt8) (t : GoString) (hs : slash ∉ c :: t)
    (hc : c ≠ dot) : lastElement (Join [d, c :: t]) = c :: t := by
  rcases Join_child d c t hs hc with ⟨_, h⟩ | ⟨_, h⟩ | h
  · rw [h, lastElement_of_not_mem _ hs]
  · rw [h]
    exact lastElement_append_slash [] _ hs
  · rw [h]
    exact lastElement_append_slash _ _ hs

theorem digit_ne_slash (d : Nat) (h : d < 10) : UInt8.ofNat (48 + d) ≠ slash := by
  intro e
  have h1 := congrArg UInt8.toNat e
  rw [UInt8.toNat_ofNat_of_lt (by simp only [UInt8.size]; omega)] at h1
  have : slash.toNat = 47 := by decide
  omega

theorem uitoaLoop_no_slash :
    ∀ (fuel val : Nat) (buf : GoString), slash ∉ buf → slash ∉ uitoaLoop fuel val buf := by
  intro fuel
  induction fuel with
  | zero => intro val buf h; simpa [uitoaLoop] using h
  | succ fuel ih =>
    intro val buf h
    rw [uitoaLoop]
    split
    · apply ih
      simp only [List.mem_cons, not_or]
      exact ⟨(digit_ne_slash _ (by omega)).symm, h⟩
    · rename_i hv
      simp only [List.mem_cons, not_or]
      exact ⟨(digit_ne_slash _ (by omega)).symm, h⟩

theorem uitoa_no_slash (val : Nat) : slash ∉ uitoa val := by
  unfold uitoa
  split
  · decide
  · exact uitoaLoop_no_slash _ _ _ (by simp)

theorem joinPath_append (dir a b : GoString) : joinPath dir a ++ b = joinPath dir (a ++ b) := by
  unfold joinPath
  split <;> simp

theorem lastElement_joinPath (dir n : GoString) (h : slash ∉ n) :
    lastElement (joinPath dir n) = n := by
  unfold joinPath
  split
  · rename_i hd
    obtain ⟨pre, hpre⟩ := List.getLast?_eq_some_iff.mp hd.2
    rw [hpre, List.append_assoc]
    exact lastElement_append_slash _ _ h
  · rw [List.append_assoc]
    exact lastElement_append_slash _ _ h

theorem prefixAndSuffix_cass : prefixAndSuffix (str "cass_") = (str "cass_", [], false) := by
  decide

theorem createTempLoop_spec (env : SysEnv) (pfx sfx : GoString) (fs : FS) :
    ∀ (fuel tries : Nat),
      ((createTempLoop env pfx sfx fs fuel tries).2.2 = none →
        (∃ v, (createTempLoop env pfx sfx fs fuel tries).2.1 = pfx ++ uitoa v ++ sfx) ∧
        fs (createTempLoop env pfx sfx fs fuel tries).2.1 = none ∧
        (createTempLoop env pfx sfx fs fuel tries).1 =
          fsSet fs (createTempLoop env pfx sfx fs fuel tries).2.1 (some ⟨[], 0o600⟩)) ∧
      ((createTempLoop env pfx sfx fs fuel tries).2.2 ≠ none →
        (createTempLoop env pfx sfx fs fuel tries).1 = fs ∧
        (createTempLoop env pfx sfx fs fuel tries).2.1 = []) := by
  intro fuel
  induction fuel with
  | zero => intro tries; simp [createTempLoop]
  | succ fuel ih =>
    intro tries
    rw [createTempLoop]
    cases hfs : fs (pfx ++ uitoa (env.rand tries % 2 ^ 32) ++ sfx) with
    | some f => simpa using ih (tries + 1)
    | none =>
      cases hfault : env.tempFault tries with
      | some e => simp
      | none =>
        refine ⟨fun _ => ⟨⟨_, rfl⟩, hfs, rfl⟩, fun h => ?_⟩
        exact absurd rfl h

/-- What a successful `ioutil.TempFile(dir, "cass_")` does: it creates one empty
file that did not exist, named `cass_` followed by decimal digits. -/
theorem TempFile_ok (env : SysEnv) (fs : FS) (dir : GoString)
    (h : (TempFile env fs dir (str "cass_")).2.2 = none) :
    (∃ v, lastElement (TempFile env fs dir (str "cass_")).2.1 = str "cass_" ++ uitoa v) ∧
      fs (TempFile env fs dir (str "cass_")).2.1 = none ∧
      (TempFile env fs dir (str "cass_")).1 =
        fsSet fs (TempFile env fs dir (str "cass_")).2.1 (some ⟨[], 0o600⟩) := by
  unfold TempFile at h ⊢
  rw [prefixAndSuffix_cass] at h ⊢
  simp only at h ⊢
  obtain ⟨⟨v, hv⟩, h2, h3⟩ := (createTempLoop_spec env _ [] fs 10000 0).1 h
  refine ⟨⟨v, ?_⟩, h2, h3⟩
  rw [hv, List.append_nil, joinPath_append, lastElement_joinPath]
  simp only [List.mem_append, not_or]
  exact ⟨by decide, uitoa_no_slash v⟩

theorem TempFile_err (env : SysEnv) (fs : FS) (dir : GoString)
    (h : (TempFile env fs dir (str "cass_")).2.2 ≠ none) :
    (TempFile env fs dir (str "cass_")).1 = fs := by
  unfold TempFile at h ⊢
  rw [prefixAndSuffix_cass] at h ⊢
  simp only at h ⊢
  exact ((createTempLoop_spec env _ [] fs 10000 0).2 h).1

/-! ## Facts about published names -/

theorem sprintfXS_inj (d1 d2 e1 e2 : GoString) (h1 : d1.length = 20) (h2 : d2.length = 20)
    (h : sprintfXS d1 e1 = sprintfXS d2 e2) : d1 = d2 ∧ e1 = e2 := by
  unfold sprintfXS at h
  have hl : (hexEncode d1).length = (hexEncode d2).length := by
    rw [hexEncode_length, hexEncode_length, h1, h2]
  have := List.append_inj h hl
  exact ⟨hexEncode_injective _ _ this.1, this.2⟩

theorem publicName_shape (n : GoString) (h : isPublicName n) :
    ∃ c t, n = c :: t ∧ slash ∉ c :: t ∧ c ≠ dot ∧ isLowerHex (n.getD 2 0) := by
  obtain ⟨d, e, hd, he, rfl⟩ := h
  have hhex := hexEncode_isLowerHex d
  have hlen := hexEncode_length d
  rw [hd] at hlen
  have hns : slash ∉ sprintfXS d e := by
    simp only [sprintfXS, List.mem_append, not_or]
    exact ⟨fun hm => isLowerHex_ne_slash _ (hhex _ hm) rfl, he⟩
  have h2 : isLowerHex ((sprintfXS d e).getD 2 0) := by
    have hm : (sprintfXS d e).getD 2 0 ∈ hexEncode d := by
      have : (sprintfXS d e).getD 2 0 = (hexEncode d)[2] := by
        simp [sprintfXS, List.getD_eq_getElem?_getD, List.getElem?_append_left, hlen]
      rw [this]
      exact List.getElem_mem _
    exact hhex _ hm
  cases hx : sprintfXS d e with
  | nil =>
    have := congrArg List.length hx
    simp [sprintfXS, hlen] at this
  | cons c t =>
    refine ⟨c, t, rfl, hx ▸ hns, ?_, hx ▸ h2⟩
    have hc : c ∈ hexEncode d := by
      have h0 : (sprintfXS d e).head? = some c := by rw [hx]; rfl
      cases hh : hexEncode d with
      | nil => rw [hh] at hlen; simp at hlen
      | cons a as =>
        simp only [sprintfXS, hh] at h0
        simp only [List.cons_append, List.head?_cons, Option.some.injEq] at h0
        subst h0
        simp
    exact isLowerHex_ne_dot _ (hhex _ hc)

theorem lastElement_Join_public (d n : GoString) (h : isPublicName n) :
    lastElement (Join [d, n]) = n := by
  obtain ⟨c, t, rfl, hs, hc, _⟩ := publicName_shape n h
  exact lastElement_Join d c t hs hc

theorem Join_public_inj (d n1 n2 : GoString) (h1 : isPublicName n1) (h2 : isPublicName n2)
    (h : Join [d, n1] = Join [d, n2]) : n1 = n2 := by
  have := congrArg lastElement h
  rwa [lastElement_Join_public d n1 h1, lastElement_Join_public d n2 h2] at this

theorem isPublicName_sprintf (bytes filename : GoString) :
    isPublicName (sprintfXS (sha1Sum bytes) (Ext filename)) :=
  ⟨_, _, sha1Sum_length bytes, Ext_no_slash filename, rfl⟩

/-- A temporary file never sits at a path `saver` publishes under. -/
theorem temp_ne_public (env : SysEnv) (fs : FS) (dir store n : GoString)
    (h : (TempFile env fs dir (str "cass_")).2.2 = none) (hn : isPublicName n) :
    (TempFile env fs dir (str "cass_")).2.1 ≠ Join [store, n] := by
  intro e
  obtain ⟨⟨v, hv⟩, _, _⟩ := TempFile_ok env fs dir h
  rw [e, lastElement_Join_public store n hn] at hv
  obtain ⟨c, t, _, _, _, h2⟩ := publicName_shape n hn
  rw [hv] at h2
  have e5 : str "cass_" = [99, 97, 115, 115, 95] := by decide
  rw [e5] at h2
  revert h2
  simp only [List.cons_append, List.getD_cons_succ, List.getD_cons_zero]
  decide

/-! ## Facts about the file-system calls -/

theorem fsSet_same (fs : FS) (p : GoString) (f : Option File) : fsSet fs p f p = f := by
  simp [fsSet]

theorem fsSet_other (fs : FS) (p q : GoString) (f : Option File) (h : q ≠ p) :
    fsSet fs p f q = fs q := by
  simp [fsSet, h]

theorem fileWrite_other (fs : FS) (name p : GoString) (x : List UInt8) (h : p ≠ name) :
    fileWrite fs name x p = fs p := by
  unfold fileWrite
  cases fs name with
  | some f => exact fsSet_other _ _ _ _ h
  | none => rfl

theorem fileWrite_same (fs : FS) (name : GoString) (x : List UInt8) (f : File)
    (h : fs name = some f) : fileWrite fs name x name = some ⟨f.data ++ x, f.mode⟩ := by
  unfold fileWrite
  rw [h]
  simp [fsSet]

/-- The effect of `io.Copy(multi, r)` on an existing temporary file: only that
file changes, it grows by a prefix of the stream, and a copy without error has
written and hashed the whole stream. -/
theorem ioCopy_spec (env : SysEnv) (temp : GoString) :
    ∀ (chunks : List (List UInt8)) (fs : FS) (hash : List UInt8) (k : Nat) (rerr : Option Error)
      (f : File), fs temp = some f →
      (∀ p, p ≠ temp → (ioCopy env temp fs hash k chunks rerr).1 p = fs p) ∧
      (∃ w, (ioCopy env temp fs hash k chunks rerr).1 temp = some ⟨f.data ++ w, f.mode⟩ ∧
        ((ioCopy env temp fs hash k chunks rerr).2.2 = none → w = chunks.flatten)) ∧
      ((ioCopy env temp fs hash k chunks rerr).2.2 = none →
        (ioCopy env temp fs hash k chunks rerr).2.1 = hash ++ chunks.flatten ∧ rerr = none) ∧
      ((∀ j, env.writeFault j = none) → (ioCopy env temp fs hash k chunks rerr).2.2 = rerr) := by
  intro chunks
  induction chunks with
  | nil =>
    intro fs hash k rerr f hf
    simp only [ioCopy, List.flatten_nil, List.append_nil]
    refine ⟨fun _ _ => trivial, ⟨[], by simpa using hf, fun _ => rfl⟩, fun h => ⟨trivial, h⟩,
      fun _ => trivial⟩
  | cons ch rest ih =>
    intro fs hash k rerr f hf
    rw [ioCopy]
    by_cases hch : ch = []
    · subst hch
      simpa using ih fs hash k rerr f hf
    · simp only [hch, if_false]
      cases hw : env.writeFault k with
      | some ne =>
        obtain ⟨n, e⟩ := ne
        refine ⟨fun p hp => fileWrite_other _ _ _ _ hp, ⟨ch.take n, fileWrite_same _ _ _ _ hf, ?_⟩,
          ?_, ?_⟩
        · intro h; simp at h
        · intro h; simp at h
        · intro h; rw [h k] at hw; simp at hw
      | none =>
        have hf1 : fileWrite fs temp ch temp = some ⟨f.data ++ ch, f.mode⟩ :=
          fileWrite_same _ _ _ _ hf
        obtain ⟨i1, ⟨w, hw1, hw2⟩, i3, i4⟩ := ih (fileWrite fs temp ch) (hash ++ ch) (k + 1) rerr _ hf1
        refine ⟨fun p hp => ?_, ⟨ch ++ w, ?_, ?_⟩, ?_, i4⟩
        · rw [i1 p hp, fileWrite_other _ _ _ _ hp]
        · simpa using hw1
        · intro h; simp [hw2 h]
        · intro h
          have := i3 h
          simpa using this

/-- Method `saver`, with the results of the calls it makes named by projections. -/
theorem saver_eq (c : cass) (env : SysEnv) (fs : FS) (r : Reader) (filename : GoString) :
    saver c env fs r filename =
      if (TempFile env fs c.tempDir (str "cass_")).2.2 ≠ none then
        ((TempFile env fs c.tempDir (str "cass_")).1, [],
          (TempFile env fs c.tempDir (str "cass_")).2.2)
      else if (ioCopy env (TempFile env fs c.tempDir (str "cass_")).2.1
          (TempFile env fs c.tempDir (str "cass_")).1 [] 0 r.chunks r.err).2.2 ≠ none then
        ((ioCopy env (TempFile env fs c.tempDir (str "cass_")).2.1
          (TempFile env fs c.tempDir (str "cass_")).1 [] 0 r.chunks r.err).1, [],
         (ioCopy env (TempFile env fs c.tempDir (str "cass_")).2.1
          (TempFile env fs c.tempDir (str "cass_")).1 [] 0 r.chunks r.err).2.2)
      else
        let temp := (TempFile env fs c.tempDir (str "cass_")).2.1
        let cp := ioCopy env temp (TempFile env fs c.tempDir (str "cass_")).1 [] 0 r.chunks r.err
        let name := sprintfXS (sha1Sum cp.2.1) (Ext filename)
        let dest := Join [c.fileStore, name]
        if (Rename env cp.1 temp dest).2 = none then
          ((Chmod env (Rename env cp.1 temp dest).1 dest 0o644).1, name, none)
        else if (moveFile env (Rename env cp.1 temp dest).1 temp dest).2 ≠ none then
          ((moveFile env (Rename env cp.1 temp dest).1 temp dest).1, [],
            (moveFile env (Rename env cp.1 temp dest).1 temp dest).2)
        else
          ((Chmod env (moveFile env (Rename env cp.1 temp dest).1 temp dest).1 dest 0o644).1,
            name, none) := by
  unfold saver
  rcases hT : TempFile env fs c.tempDir (str "cass_") with ⟨fs1, temp, _ | e1⟩
  · simp only [ne_eq, not_true_eq_false, if_false]
    rcases hC : ioCopy env temp fs1 [] 0 r.chunks r.err with ⟨fs2, hash, _ | e2⟩
    · simp only [ne_eq, not_true_eq_false, if_false]
      rcases hR : Rename env fs2 temp (Join [c.fileStore, sprintfXS (sha1Sum hash) (Ext filename)])
        with ⟨fs3, _ | e3⟩
      · simp
      · simp only [reduceCtorEq, if_false, ne_eq]
        rcases hM : moveFile env fs3 temp
          (Join [c.fileStore, sprintfXS (sha1Sum hash) (Ext filename)]) with ⟨fs4, _ | e4⟩
        · simp
        · simp
    · simp
  · simp

theorem Chmod_content (env : SysEnv) (fs : FS) (name : GoString) (mode : Nat) (p : GoString) :
    contentAt (Chmod env fs name mode).1 p = contentAt fs p := by
  unfold Chmod contentAt
  cases env.chmodFault with
  | some e => rfl
  | none =>
    cases h : fs name with
    | none => rfl
    | some f =>
      by_cases hp : p = name
      · subst hp; simp [fsSet, h]
      · simp [fsSet, hp]

theorem Rename_ok (env : SysEnv) (fs : FS) (o n : GoString) (f : File) (hf : fs o = some f)
    (hne : o ≠ n) (h : env.renameFault = none) :
    Rename env fs o n = (fsSet (fsSet fs n (some f)) o none, none) := by
  simp [Rename, h, hf, hne]

theorem Rename_fault (env : SysEnv) (fs : FS) (o n : GoString) (f : File) (hf : fs o = some f)
    (h : (Rename env fs o n).2 ≠ none) :
    env.renameFault ≠ none ∧ (Rename env fs o n).1 = fs := by
  unfold Rename at h ⊢
  cases hr : env.renameFault with
  | some e => simp
  | none =>
    rw [hr] at h
    simp only [hf] at h
    split at h <;> simp at h

/-- What `moveFile` does to a source that exists and differs from the destination. -/
theorem moveFile_spec (env : SysEnv) (fs : FS) (o n : GoString) (f : File) (hf : fs o = some f)
    (hne : o ≠ n) :
    (∀ p, p ≠ o → p ≠ n → (moveFile env fs o n).1 p = fs p) ∧
    ((moveFile env fs o n).2 = none → contentAt (moveFile env fs o n).1 n = some f.data) ∧
    (env.mvCopyFault = none → contentAt (moveFile env fs o n).1 n = contentAt fs n ∨
      contentAt (moveFile env fs o n).1 n = some f.data) ∧
    (env.mvOpenFault = none → env.mvCreateFault = none → env.mvCopyFault = none →
      env.mvRemoveFault = none → (moveFile env fs o n).2 = none) := by
  unfold moveFile
  simp only [hf, reduceCtorEq, if_false]
  cases h1 : env.mvOpenFault with
  | some e => simp
  | none =>
    cases h2 : env.mvCreateFault with
    | some e => simp
    | none =>
      simp only
      -- the destination after os.Create
      have key : ∃ m, (match fs n with
          | some g => fsSet fs n (some { g with data := [] })
          | none => fsSet fs n (some ⟨[], 0o666⟩)) = fsSet fs n (some ⟨[], m⟩) := by
        cases fs n with
        | some g => exact ⟨g.mode, rfl⟩
        | none => exact ⟨0o666, rfl⟩
      obtain ⟨m, hm⟩ := key
      rw [hm]
      have hsrc : fsSet fs n (some ⟨[], m⟩) o = some f := by
        rw [fsSet_other _ _ _ _ hne, hf]
      have hdst : fsSet fs n (some ⟨[], m⟩) n = some ⟨[], m⟩ := fsSet_same _ _ _
      simp only [hsrc]
      cases h3 : env.mvCopyFault with
      | some ne =>
        obtain ⟨k, e⟩ := ne
        simp only [reduceCtorEq, false_implies, and_true, imp_false, not_true_eq_false]
        refine ⟨fun p hp1 hp2 => ?_, ?_⟩
        · rw [fileWrite_other _ _ _ _ hp2, fsSet_other _ _ _ _ hp2]
        · simp
      | none =>
        have hw : fileWrite (fsSet fs n (some ⟨[], m⟩)) n f.data n = some ⟨f.data, m⟩ := by
          rw [fileWrite_same _ _ _ _ hdst]; simp
        have hwo : fileWrite (fsSet fs n (some ⟨[], m⟩)) n f.data o = some f := by
          rw [fileWrite_other _ _ _ _ hne, hsrc]
        simp only [hwo, reduceCtorEq, if_false]
        cases h4 : env.mvRemoveFault with
        | some e =>
          refine ⟨fun p hp1 hp2 => ?_, fun h => ?_, fun _ => Or.inr ?_, fun _ _ _ h => ?_⟩
          · show fileWrite _ _ _ p = fs p
            rw [fileWrite_other _ _ _ _ hp2, fsSet_other _ _ _ _ hp2]
          · simp at h
          · simp [contentAt, hw]
          · simp at h
        | none =>
          simp only [true_implies, and_true]
          have hn : fsSet (fileWrite (fsSet fs n (some ⟨[], m⟩)) n f.data) o none n =
              some ⟨f.data, m⟩ := by
            rw [fsSet_other _ _ _ _ (Ne.symm hne), hw]
          refine ⟨fun p hp1 hp2 => ?_, ?_, Or.inr ?_⟩
          · rw [fsSet_other _ _ _ _ hp1, fileWrite_other _ _ _ _ hp2, fsSet_other _ _ _ _ hp2]
          · simp [contentAt, hn]
          · simp [contentAt, hn]

/-! ## What one call of `saver` does -/

/-- One call of `saver`, described through the temporary file it creates and the
destination it computes: which paths it can change, what it returns, and what
the destination holds afterwards. -/
theorem saver_spec (c : cass) (env : SysEnv) (fs : FS) (r : Reader) (filename : GoString) :
    (∀ p, p ≠ destinationOf c r.bytes filename →
      ((TempFile env fs c.tempDir (str "cass_")).2.2 = none →
        p ≠ (TempFile env fs c.tempDir (str "cass_")).2.1) →
      (saver c env fs r filename).1 p = fs p) ∧
    ((saver c env fs r filename).2.2 = none →
      (saver c env fs r filename).2.1 = sprintfXS (sha1Sum r.bytes) (Ext filename) ∧
      contentAt (saver c env fs r filename).1 (destinationOf c r.bytes filename) = some r.bytes ∧
      r.err = none) ∧
    ((saver c env fs r filename).2.2 ≠ none → (saver c env fs r filename).2.1 = []) ∧
    ((env.renameFault = none ∨ env.mvCopyFault = none) →
      contentAt (saver c env fs r filename).1 (destinationOf c r.bytes filename) =
        contentAt fs (destinationOf c r.bytes filename) ∨
      contentAt (saver c env fs r filename).1 (destinationOf c r.bytes filename) = some r.bytes) ∧
    ((TempFile env fs c.tempDir (str "cass_")).2.2 = none → (∀ j, env.writeFault j = none) →
      r.err = none →
      (env.renameFault = none ∨ (env.mvOpenFault = none ∧ env.mvCreateFault = none ∧
        env.mvCopyFault = none ∧ env.mvRemoveFault = none)) →
      (saver c env fs r filename).2.2 = none) ∧
    ((TempFile env fs c.tempDir (str "cass_")).2.2 = none → (∀ j, env.writeFault j = none) →
      r.err ≠ none →
      (saver c env fs r filename).2 = ([], r.err) ∧
      ∀ p, p ≠ (TempFile env fs c.tempDir (str "cass_")).2.1 →
        (saver c env fs r filename).1 p = fs p) := by
  rw [saver_eq]
  by_cases hT : (TempFile env fs c.tempDir (str "cass_")).2.2 = none
  swap
  · -- the temporary file could not be created
    have h1 := TempFile_err env fs c.tempDir hT
    simp only [ne_eq, hT, not_false_eq_true, if_true, h1]
    simp
  obtain ⟨_, hfresh, hfs1⟩ := TempFile_ok env fs c.tempDir hT
  have hpub : (TempFile env fs c.tempDir (str "cass_")).2.1 ≠ destinationOf c r.bytes filename :=
    temp_ne_public env fs c.tempDir c.fileStore _ hT (isPublicName_sprintf _ _)
  have hf1 : (TempFile env fs c.tempDir (str "cass_")).1
      (TempFile env fs c.tempDir (str "cass_")).2.1 = some ⟨[], 0o600⟩ := by
    rw [hfs1]; exact fsSet_same _ _ _
  have hframe1 : ∀ p, p ≠ (TempFile env fs c.tempDir (str "cass_")).2.1 →
      (TempFile env fs c.tempDir (str "cass_")).1 p = fs p := by
    intro p hp; rw [hfs1]; exact fsSet_other _ _ _ _ hp
  obtain ⟨cframe, ⟨w, hw1, hw2⟩, chash, cerr⟩ := ioCopy_spec env
    (TempFile env fs c.tempDir (str "cass_")).2.1 r.chunks
    (TempFile env fs c.tempDir (str "cass_")).1 [] 0 r.err _ hf1
  simp only [ne_eq, hT, not_true_eq_false, if_false, true_implies]
  generalize (TempFile env fs c.tempDir (str "cass_")).2.1 = temp at *
  generalize (TempFile env fs c.tempDir (str "cass_")).1 = fs1 at *
  generalize ioCopy env temp fs1 [] 0 r.chunks r.err = cp at *
  by_cases hC : cp.2.2 = none
  swap
  · -- the copy failed
    simp only [hC, not_false_eq_true, if_true]
    have hd : cp.1 (destinationOf c r.bytes filename) = fs (destinationOf c r.bytes filename) := by
      rw [cframe _ (Ne.symm hpub), hframe1 _ (Ne.symm hpub)]
    refine ⟨fun p _ hp => ?_, ?_, ?_, fun _ => Or.inl ?_, fun hw he _ => ?_, fun hw he => ?_⟩
    · rw [cframe p hp, hframe1 p hp]
    · intro h; exact h.elim
    · intro _; trivial
    · simp [contentAt, hd]
    · rw [cerr hw] at hC; exact absurd he hC
    · refine ⟨by rw [cerr hw], fun p hp => ?_⟩
      rw [cframe p hp, hframe1 p hp]
  -- the copy went through: the temporary file holds the whole stream
  obtain ⟨hhash, herr⟩ := chash hC
  have hwb : w = r.bytes := hw2 hC
  subst hwb
  simp only [List.nil_append] at hhash hw1
  rw [show r.chunks.flatten = r.bytes from rfl] at hhash
  have hdest : Join [c.fileStore, sprintfXS (sha1Sum r.bytes) (Ext filename)] =
      destinationOf c r.bytes filename := rfl
  simp only [hC, not_true_eq_false, if_false, hhash, herr, hdest]
  generalize destinationOf c r.bytes filename = dest at *
  have hcd : cp.1 dest = fs dest := by
    rw [cframe _ (Ne.symm hpub), hframe1 _ (Ne.symm hpub)]
  by_cases hR : (Rename env cp.1 temp dest).2 = none
  · -- published by os.Rename
    have hrf : env.renameFault = none := by
      unfold Rename at hR
      cases hr : env.renameFault with
      | none => rfl
      | some e => rw [hr] at hR; simp at hR
    have hRe := Rename_ok env cp.1 temp dest _ hw1 hpub hrf
    simp only [hR, if_true, hRe, Chmod_content]
    have hcon : contentAt (fsSet (fsSet cp.1 dest (some ⟨r.bytes, 0o600⟩)) temp none) dest =
        some r.bytes := by
      simp [contentAt, fsSet, Ne.symm hpub]
    refine ⟨fun p hp1 hp2 => ?_, fun _ => ⟨trivial, hcon, trivial⟩, ?_, fun _ => Or.inr hcon,
      fun _ _ _ => trivial, fun _ h => h.elim⟩
    · have := Chmod_content env (fsSet (fsSet cp.1 dest (some ⟨r.bytes, 0o600⟩)) temp none)
        dest 0o644 p
      unfold Chmod at this ⊢
      cases env.chmodFault with
      | some e =>
        show fsSet (fsSet cp.1 dest _) temp none p = fs p
        rw [fsSet_other _ _ _ _ hp2, fsSet_other _ _ _ _ hp1, cframe p hp2, hframe1 p hp2]
      | none =>
        cases hx : fsSet (fsSet cp.1 dest (some ⟨r.bytes, 0o600⟩)) temp none dest with
        | none =>
          show fsSet (fsSet cp.1 dest _) temp none p = fs p
          rw [fsSet_other _ _ _ _ hp2, fsSet_other _ _ _ _ hp1, cframe p hp2, hframe1 p hp2]
        | some g =>
          show fsSet (fsSet (fsSet cp.1 dest _) temp none) dest _ p = fs p
          rw [fsSet_other _ _ _ _ hp1, fsSet_other _ _ _ _ hp2, fsSet_other _ _ _ _ hp1,
            cframe p hp2, hframe1 p hp2]
    · intro h; exact absurd trivial h
  · -- os.Rename failed: the moveFile fallback
    obtain ⟨hrf, hR1⟩ := Rename_fault env cp.1 temp dest _ hw1 hR
    obtain ⟨mframe, mok, mdest, mtotal⟩ := moveFile_spec env cp.1 temp dest _ hw1 hpub
    simp only [hR, if_false, hR1]
    by_cases hM : (moveFile env cp.1 temp dest).2 = none
    · simp only [hM, not_true_eq_false, if_false, Chmod_content]
      refine ⟨fun p hp1 hp2 => ?_, fun _ => ⟨trivial, mok hM, trivial⟩, ?_,
        fun _ => Or.inr (mok hM), fun _ _ _ => trivial, fun _ h => h.elim⟩
      · have hmp : (moveFile env cp.1 temp dest).1 p = fs p := by
          rw [mframe p hp2 hp1, cframe p hp2, hframe1 p hp2]
        unfold Chmod
        cases env.chmodFault with
        | some e => exact hmp
        | none =>
          cases hx : (moveFile env cp.1 temp dest).1 dest with
          | none => exact hmp
          | some g =>
            show fsSet _ dest _ p = fs p
            rw [fsSet_other _ _ _ _ hp1, hmp]
      · intro h; exact h.elim
    · simp only [hM, not_false_eq_true, if_true]
      refine ⟨fun p hp1 hp2 => ?_, fun h => h.elim, fun _ => trivial, fun hcf => ?_,
        fun _ _ hp => ?_, fun _ h => h.elim⟩
      · rw [mframe p hp2 hp1, cframe p hp2, hframe1 p hp2]
      · rcases mdest (hcf.resolve_left hrf) with h | h
        · left; rw [h]; simp [contentAt, hcd]
        · right; exact h
      · rcases hp with h | ⟨h1, h2, h3, h4⟩
        · exact absurd h hrf
        · exact absurd (mtotal h1 h2 h3 h4) hM

set_option maxRecDepth 100000

/-! ## The claims about `saver` -/

/-- C1. When the temporary file can be created, the copy meets neither a read
nor a write error, and publishing succeeds (through `os.Rename` or through the
`moveFile` fallback), `saver` returns exactly `hex(SHA1(B)) + E`, which is 40
lower-case hexadecimal characters followed by the extension `E` of the original
file name, with a nil error, and the file at `fileStore/<returned name>` holds
exactly the bytes `B` read from the stream. -/
theorem saver_stores_under_digest (c : cass) (env : SysEnv) (fs : FS) (r : Reader)
    (filename B E : GoString) (hB : r.bytes = B) (hE : Ext filename = E)
    (htemp : (TempFile env fs c.tempDir (str "cass_")).2.2 = none)
    (hwrite : ∀ j, env.writeFault j = none) (hread : r.err = none)
    (hpublish : env.renameFault = none ∨ (env.mvOpenFault = none ∧ env.mvCreateFault = none ∧
      env.mvCopyFault = none ∧ env.mvRemoveFault = none)) :
    (saver c env fs r filename).2 = (hexEncode (sha1Sum B) ++ E, none) ∧
    (hexEncode (sha1Sum B)).length = 40 ∧
    (∀ x ∈ hexEncode (sha1Sum B), isLowerHex x) ∧
    contentAt (saver c env fs r filename).1 (Join [c.fileStore, hexEncode (sha1Sum B) ++ E]) =
      some B := by
  subst hB hE
  obtain ⟨_, hok, _, _, htotal, _⟩ := saver_spec c env fs r filename
  have hnone := htotal htemp hwrite hread hpublish
  obtain ⟨hname, hcontent, _⟩ := hok hnone
  refine ⟨?_, ?_, hexEncode_isLowerHex _, hcontent⟩
  · exact Prod.ext hname hnone
  · rw [hexEncode_length, sha1Sum_length]

/-- C1, on the empty stream and the extension-less name `noext`: the name is the
SHA-1 of the empty string and the published file is empty. -/
theorem saver_stores_under_digest_witness :
    (TempFile noFaults emptyFS exampleCass.tempDir (str "cass_")).2.2 = none ∧
    (saver exampleCass noFaults emptyFS emptyReader (str "noext")).2 =
      (str "da39a3ee5e6b4b0d3255bfef95601890afd80709", none) ∧
    contentAt (saver exampleCass noFaults emptyFS emptyReader (str "noext")).1
      (str "/srv/c/da39a3ee5e6b4b0d3255bfef95601890afd80709") = some [] := by
  have h := saver_stores_under_digest exampleCass noFaults emptyFS emptyReader (str "noext")
    [] [] rfl (by decide) (by decide) (fun _ => rfl) rfl (Or.inl rfl)
  have e1 : hexEncode (sha1Sum []) ++ [] = str "da39a3ee5e6b4b0d3255bfef95601890afd80709" := by
    decide
  have e2 : Join [exampleCass.fileStore, str "da39a3ee5e6b4b0d3255bfef95601890afd80709"] =
      str "/srv/c/da39a3ee5e6b4b0d3255bfef95601890afd80709" := by decide
  rw [e1, e2] at h
  exact ⟨by decide, h.1, h.2.2.2⟩

/-- C2. Two successful calls of `saver`, one after the other, on streams with the
same content and original names with the same extension return the same file
name, and the destination holds after the second call what it held after the
first. -/
theorem saver_idempotent (c : cass) (env1 env2 : SysEnv) (fs : FS) (r1 r2 : Reader)
    (f1 f2 : GoString) (hB : r1.bytes = r2.bytes) (hE : Ext f1 = Ext f2)
    (h1 : (saver c env1 fs r1 f1).2.2 = none)
    (h2 : (saver c env2 (saver c env1 fs r1 f1).1 r2 f2).2.2 = none) :
    (saver c env2 (saver c env1 fs r1 f1).1 r2 f2).2.1 = (saver c env1 fs r1 f1).2.1 ∧
    contentAt (saver c env2 (saver c env1 fs r1 f1).1 r2 f2).1
        (Join [c.fileStore, (saver c env1 fs r1 f1).2.1]) =
      contentAt (saver c env1 fs r1 f1).1 (Join [c.fileStore, (saver c env1 fs r1 f1).2.1]) := by
  obtain ⟨n1, c1, _⟩ := (saver_spec c env1 fs r1 f1).2.1 h1
  obtain ⟨n2, c2, _⟩ := (saver_spec c env2 (saver c env1 fs r1 f1).1 r2 f2).2.1 h2
  have hd : destinationOf c r2.bytes f2 = destinationOf c r1.bytes f1 := by
    unfold destinationOf; rw [hB, hE]
  rw [hd] at c2
  refine ⟨?_, ?_⟩
  · rw [n1, n2, hB, hE]
  · have hj : Join [c.fileStore, (saver c env1 fs r1 f1).2.1] = destinationOf c r1.bytes f1 := by
      rw [n1]; rfl
    rw [hj, c1, c2, hB]

/-- C2, storing `hello` twice under names ending in `.txt`. -/
theorem saver_idempotent_witness :
    (saver exampleCass noFaults emptyFS helloReader (str "a.txt")).2.2 = none ∧
    (saver exampleCass noFaults (saver exampleCass noFaults emptyFS helloReader (str "a.txt")).1
      ⟨[str "hello"], none⟩ (str "b.c.txt")).2.1 =
      (saver exampleCass noFaults emptyFS helloReader (str "a.txt")).2.1 :=
  ⟨by decide,
    (saver_idempotent exampleCass noFaults noFaults emptyFS helloReader ⟨[str "hello"], none⟩
      (str "a.txt") (str "b.c.txt") (by decide) (by decide) (by decide) (by decide)).1⟩

/-! ## The claims about the handlers -/

/-- C3. For an upload whose file part has content `B` and declared file name `N`,
when storing succeeds `fileReceiver` returns normally, the status is 200 and the
body is exactly `urlBase + hex(SHA1(B)) + ext(N)`. -/
theorem fileReceiver_success (c : cass) (env : SysEnv) (fs : FS) (r : Request) (file : Reader)
    (header : FileHeader) (hform : r.FormFile (str "file") = (some file, some header, none))
    (hstore : (saver c env fs file header.Filename).2.2 = none) :
    (fileReceiver c env fs freshWriter r).panicked = false ∧
    (fileReceiver c env fs freshWriter r).w.code = 200 ∧
    (fileReceiver c env fs freshWriter r).w.body =
      c.urlBase ++ hexEncode (sha1Sum file.bytes) ++ Ext header.Filename := by
  obtain ⟨hname, _, _⟩ := (saver_spec c env fs file header.Filename).2.1 hstore
  unfold fileReceiver
  rw [hform]
  simp only
  rcases hs : saver c env fs file header.Filename with ⟨fs1, name, err⟩
  rw [hs] at hstore hname
  simp only at hstore hname
  subst hstore hname
  simp [write, writeHeader, freshWriter, ResponseWriter.code, sprintfXS]

/-- C3, on the upload of `hello.txt` with content `hello`. -/
theorem fileReceiver_success_witness :
    (fileReceiver exampleCass noFaults emptyFS freshWriter helloUpload).w.code = 200 ∧
    (fileReceiver exampleCass noFaults emptyFS freshWriter helloUpload).w.body =
      exampleCass.urlBase ++ str "aaf4c61ddcc5e8a2dabede0f3b482cd9aea9434d.txt" := by
  have h := fileReceiver_success exampleCass noFaults emptyFS helloUpload helloReader
    ⟨str "hello.txt"⟩ rfl (by decide)
  have e : exampleCass.urlBase ++ hexEncode (sha1Sum helloReader.bytes) ++
      Ext (FileHeader.mk (str "hello.txt")).Filename =
      exampleCass.urlBase ++ str "aaf4c61ddcc5e8a2dabede0f3b482cd9aea9434d.txt" := by decide
  rw [e] at h
  exact ⟨h.2.1, h.2.2⟩

/-- Whenever `saver` fails after a successful `FormFile`, `fileReceiver` writes the
error text, a newline and then `urlBase` under status 500. -/
theorem fileReceiver_on_saver_error (c : cass) (env : SysEnv) (fs : FS) (r : Request)
    (file : Reader) (header : FileHeader) (e : Error)
    (hform : r.FormFile (str "file") = (some file, some header, none))
    (hs : (saver c env fs file header.Filename).2.2 = some e) :
    (fileReceiver c env fs freshWriter r).w = ⟨some 500, e.msg ++ [10] ++ c.urlBase⟩ := by
  have hname := (saver_spec c env fs file header.Filename).2.2.1 (by rw [hs]; simp)
  unfold fileReceiver
  rw [hform]
  simp only
  rcases hsv : saver c env fs file header.Filename with ⟨fs1, name, err⟩
  rw [hsv] at hs hname
  simp only at hs hname
  subst hs hname
  simp [write, writeHeader, freshWriter, httpError]

/-- Whenever `saver` fails after a successful fetch, `linkReceiver` writes the
error text, a newline and then `urlBase` under status 500. -/
theorem linkReceiver_on_saver_error (c : cass) (net : NetEnv) (env : SysEnv) (fs : FS)
    (r : Request) (stream : Reader) (e : Error)
    (hget : httpGet c net (r.FormValue (str "url")) = (some stream, none))
    (hs : (saver c env fs stream (r.FormValue (str "filename"))).2.2 = some e) :
    (linkReceiver c net env fs freshWriter r).w = ⟨some 500, e.msg ++ [10] ++ c.urlBase⟩ := by
  have hname := (saver_spec c env fs stream (r.FormValue (str "filename"))).2.2.1
    (by rw [hs]; simp)
  unfold linkReceiver
  simp only [hget]
  rcases hsv : saver c env fs stream (r.FormValue (str "filename")) with ⟨fs1, name, err⟩
  rw [hsv] at hs hname
  simp only at hs hname
  subst hs hname
  simp [write, writeHeader, freshWriter, httpError]

/-- Whenever `httpGet` returns the nil stream, `linkReceiver` panics with nothing
written and nothing stored. -/
theorem linkReceiver_on_fetch_error (c : cass) (net : NetEnv) (env : SysEnv) (fs : FS)
    (w : ResponseWriter) (r : Request)
    (hget : (httpGet c net (r.FormValue (str "url"))).1 = none) :
    (linkReceiver c net env fs w r).panicked = true ∧ (linkReceiver c net env fs w r).w = w ∧
    (linkReceiver c net env fs w r).fs = fs := by
  unfold linkReceiver
  rcases hg : httpGet c net (r.FormValue (str "url")) with ⟨stream, err⟩
  rw [hg] at hget
  simp only at hget
  subst hget
  simp only [hg, and_self]

/-- The stream `httpGet` returns is nil exactly when it returns an error. -/
theorem httpGet_nil_iff (c : cass) (net : NetEnv) (link : GoString) :
    (httpGet c net link).1 = none ↔ (httpGet c net link).2 ≠ none := by
  unfold httpGet
  cases net.newRequest link with
  | some e => simp
  | none =>
    cases net.clientDo link c.userAgent with
    | error e => simp
    | ok b => simp

/-- C4, what the code does. When `saver` fails because the temporary file cannot
be created, both handlers answer with status 500 and a body that is the error
text and a newline followed by `urlBase`: after `http.Error` the handlers do not
return, and `fmt.Fprintf(w, "%s%s", c.urlBase, filename)` runs with the empty
file name. -/
theorem handlers_write_after_error :
    (saver exampleCass noTempDir emptyFS helloReader (str "hello.txt")).2 =
      ([], some ⟨str "open ./tmp/cass_7: no such file or directory"⟩) ∧
    (fileReceiver exampleCass noTempDir emptyFS freshWriter helloUpload).w =
      ⟨some 500, str "open ./tmp/cass_7: no such file or directory\n" ++ exampleCass.urlBase⟩ ∧
    (linkReceiver exampleCass helloNet noTempDir emptyFS freshWriter helloLink).w =
      ⟨some 500, str "open ./tmp/cass_7: no such file or directory\n" ++ exampleCass.urlBase⟩ ∧
    (fileReceiver exampleCass noTempDir emptyFS freshWriter helloUpload).w.body ≠
      str "open ./tmp/cass_7: no such file or directory" := by
  decide

/-- C5, what the code does. When the link cannot be fetched, `httpGet` returns the
nil stream, and `linkReceiver` panics at `defer fileStream.Close()` before the
check of `err`: the handler does not return, no status 500 and no error text is
written, and the file system is untouched. -/
theorem linkReceiver_panics_on_fetch_error :
    httpGet exampleCass unreachableNet (str "http://unreachable.invalid/a.png") =
      (none, some ⟨str "dial tcp: connect: connection refused"⟩) ∧
    (linkReceiver exampleCass unreachableNet noFaults emptyFS freshWriter unreachableLink).panicked
      = true ∧
    (linkReceiver exampleCass unreachableNet noFaults emptyFS freshWriter unreachableLink).w =
      freshWriter ∧
    (linkReceiver exampleCass unreachableNet noFaults emptyFS freshWriter unreachableLink).w.status
      ≠ some 500 := by
  decide

/-! ## Failure, names and extensions -/

theorem TempFile_name (env : SysEnv) (fs : FS) (dir : GoString)
    (h : (TempFile env fs dir (str "cass_")).2.2 = none) :
    ∃ v, (TempFile env fs dir (str "cass_")).2.1 =
      joinPath (if dir = [] then env.osTempDir else dir) (str "cass_" ++ uitoa v) := by
  unfold TempFile at h ⊢
  rw [prefixAndSuffix_cass] at h ⊢
  simp only at h ⊢
  obtain ⟨⟨v, hv⟩, _, _⟩ := (createTempLoop_spec env _ [] fs 10000 0).1 h
  exact ⟨v, by rw [hv, List.append_nil, joinPath_append]⟩

/-- C6. When the temporary file was created, the writes to it succeed and the
stream ends in a read error, `saver` returns that error and the empty file name.
The only path whose file differs afterwards is the temporary file, which did not
exist before, is named `cass_` plus digits inside the temporary directory, and is
not a path `saver` publishes under; every published name of the file store holds
what it held before. -/
theorem saver_read_error_leaves_store (c : cass) (env : SysEnv) (fs : FS) (r : Reader)
    (filename : GoString) (e : Error)
    (htemp : (TempFile env fs c.tempDir (str "cass_")).2.2 = none)
    (hwrite : ∀ j, env.writeFault j = none) (hread : r.err = some e) :
    (saver c env fs r filename).2 = ([], some e) ∧
    (∀ p, p ≠ (TempFile env fs c.tempDir (str "cass_")).2.1 →
      (saver c env fs r filename).1 p = fs p) ∧
    fs (TempFile env fs c.tempDir (str "cass_")).2.1 = none ∧
    (∃ v, (TempFile env fs c.tempDir (str "cass_")).2.1 =
      joinPath (if c.tempDir = [] then env.osTempDir else c.tempDir) (str "cass_" ++ uitoa v)) ∧
    (∀ n, isPublicName n →
      (saver c env fs r filename).1 (Join [c.fileStore, n]) = fs (Join [c.fileStore, n])) := by
  obtain ⟨_, _, _, _, _, hfail⟩ := saver_spec c env fs r filename
  obtain ⟨hres, hframe⟩ := hfail htemp hwrite (by rw [hread]; simp)
  obtain ⟨_, hfresh, _⟩ := TempFile_ok env fs c.tempDir htemp
  refine ⟨by rw [hres, hread], hframe, hfresh, TempFile_name env fs c.tempDir htemp, ?_⟩
  intro n hn
  exact hframe _ (Ne.symm (temp_ne_public env fs c.tempDir c.fileStore n htemp hn))

/-- C6, on a stream that fails after `he`: the error comes back, the store path of
`hello` stays absent, and the partial file is `./tmp/cass_7`. -/
theorem saver_read_error_leaves_store_witness :
    (TempFile noFaults emptyFS exampleCass.tempDir (str "cass_")).2.2 = none ∧
    (saver exampleCass noFaults emptyFS failingReader (str "hello.txt")).2 =
      ([], some ⟨str "unexpected EOF"⟩) ∧
    (saver exampleCass noFaults emptyFS failingReader (str "hello.txt")).1
      (str "/srv/c/aaf4c61ddcc5e8a2dabede0f3b482cd9aea9434d.txt") = none ∧
    contentAt (saver exampleCass noFaults emptyFS failingReader (str "hello.txt")).1
      (str "./tmp/cass_7") = some (str "he") := by
  have h := saver_read_error_leaves_store exampleCass noFaults emptyFS failingReader
    (str "hello.txt") ⟨str "unexpected EOF"⟩ (by decide) (fun _ => rfl) rfl
  refine ⟨by decide, h.1, ?_, by decide⟩
  rw [h.2.1 _ (by decide)]
  rfl

/-- C8. Whatever string is passed as the original file name, `saver` either fails
with the empty name or returns 40 lower-case hexadecimal characters followed by
the extension `path.Ext` gives, which contains no `'/'`; the returned name then
contains no `'/'`, it is the file part `path.Split` finds in
`path.Join(fileStore, name)`, and that destination is the name directly below the
cleaned file-store directory. -/
theorem saver_name_no_traversal (c : cass) (env : SysEnv) (fs : FS) (r : Reader)
    (filename : GoString) :
    ((saver c env fs r filename).2.2 ≠ none ∧ (saver c env fs r filename).2.1 = []) ∨
    ((saver c env fs r filename).2.2 = none ∧
      (∃ h, (saver c env fs r filename).2.1 = h ++ Ext filename ∧ h.length = 40 ∧
        ∀ x ∈ h, isLowerHex x) ∧
      slash ∉ Ext filename ∧
      slash ∉ (saver c env fs r filename).2.1 ∧
      (Split (Join [c.fileStore, (saver c env fs r filename).2.1])).2 =
        (saver c env fs r filename).2.1 ∧
      ((Clean c.fileStore = [dot] ∧
          Join [c.fileStore, (saver c env fs r filename).2.1] =
            (saver c env fs r filename).2.1) ∨
        (Clean c.fileStore = [slash] ∧
          Join [c.fileStore, (saver c env fs r filename).2.1] =
            slash :: (saver c env fs r filename).2.1) ∨
        Join [c.fileStore, (saver c env fs r filename).2.1] =
          Clean c.fileStore ++ slash :: (saver c env fs r filename).2.1)) := by
  obtain ⟨_, hok, herr, _⟩ := saver_spec c env fs r filename
  by_cases h : (saver c env fs r filename).2.2 = none
  · right
    obtain ⟨hname, _, _⟩ := hok h
    have hpub := isPublicName_sprintf r.bytes filename
    obtain ⟨x, t, hxt, hs, hx, _⟩ := publicName_shape _ hpub
    rw [hname]
    refine ⟨h, ⟨hexEncode (sha1Sum r.bytes), rfl, ?_, hexEncode_isLowerHex _⟩, Ext_no_slash _,
      ?_, (Split_snd _).trans (lastElement_Join_public _ _ hpub), ?_⟩
    · rw [hexEncode_length, sha1Sum_length]
    · rw [hxt]; exact hs
    · rw [hxt]; exact Join_child c.fileStore x t hs hx
  · left
    exact ⟨h, herr h⟩

/-- C9, as amended. The extension `saver` uses is the substring from the last
`'.'` to the end of the final slash-separated element of the file name, the dot
included, and is empty when that element has no `'.'`; for a name without `'/'`
this is the substring from the last `'.'` of the name. Case is preserved. -/
theorem Ext_is_last_dot_of_last_element (filename : GoString) :
    Ext filename = lastDotSuffix (lastElement filename) ∧
    (slash ∉ filename → Ext filename = lastDotSuffix filename) ∧
    (dot ∉ lastElement filename → Ext filename = []) ∧
    Ext (str "photo.JPG") = str ".JPG" ∧ Ext (str "noext") = [] ∧ Ext [] = [] := by
  refine ⟨Ext_eq_spec filename, fun h => ?_, fun h => ?_, by decide, by decide, by decide⟩
  · rw [Ext_eq_spec, lastElement_of_not_mem _ h]
  · rw [Ext_eq_spec, lastDotSuffix_of_not_mem _ h]

/-- C9, as stated, fails on `a.b/c`: the substring from the last `'.'` is `.b/c`,
but `path.Ext` stops at the `'/'` and gives the empty extension. -/
theorem Ext_differs_from_last_dot :
    lastDotSuffix (str "a.b/c") = str ".b/c" ∧ Ext (str "a.b/c") = [] ∧
    Ext (str "a.b/c") ≠ lastDotSuffix (str "a.b/c") := by
  decide

/-- C10. The stored name determines the digest and the extension: when the names
formatted for two 20-byte digests and two extensions given by `path.Ext` are
equal, the digests are equal and the extensions are equal. -/
theorem stored_name_injective (d1 d2 : List UInt8) (f1 f2 : GoString) (h1 : d1.length = 20)
    (h2 : d2.length = 20) (h : sprintfXS d1 (Ext f1) = sprintfXS d2 (Ext f2)) :
    d1 = d2 ∧ Ext f1 = Ext f2 :=
  sprintfXS_inj d1 d2 (Ext f1) (Ext f2) h1 h2 h

/-- C10, on the digest of `hello` with the names `a.txt` and `dir.d/b.txt`. -/
theorem stored_name_injective_witness :
    sprintfXS (sha1Sum (str "hello")) (Ext (str "a.txt")) =
      sprintfXS (sha1Sum (str "hello")) (Ext (str "dir.d/b.txt")) ∧
    Ext (str "a.txt") = Ext (str "dir.d/b.txt") :=
  ⟨by decide, (stored_name_injective (sha1Sum (str "hello")) (sha1Sum (str "hello"))
    (str "a.txt") (str "dir.d/b.txt") (sha1Sum_length _) (sha1Sum_length _) (by decide)).2⟩

/-! ## Sequences of calls -/

theorem runSavers_append (c : cass) (a b : List SaverCall) (fs : FS) :
    runSavers c fs (a ++ b) = runSavers c (runSavers c fs a) b := by
  induction a generalizing fs with
  | nil => rfl
  | cons k ks ih => rw [List.cons_append, runSavers, runSavers, ih]

/-- One call of `saver` whose fallback, if taken, does not fail while copying:
files under published names stay addressed by their content, and a published
file is kept or replaced by the bytes just stored, which have its digest. -/
theorem saver_step (c : cass) (k : SaverCall) (fs : FS)
    (hk : k.env.renameFault = none ∨ k.env.mvCopyFault = none)
    (hinv : addressedByContent c fs) :
    addressedByContent c (saver c k.env fs k.r k.filename).1 ∧
    ∀ n, isPublicName n → ∀ B, contentAt fs (Join [c.fileStore, n]) = some B →
      ∃ B1, contentAt (saver c k.env fs k.r k.filename).1 (Join [c.fileStore, n]) = some B1 ∧
        (B1 = B ∨ (B1 = k.r.bytes ∧ sha1Sum k.r.bytes = sha1Sum B)) := by
  obtain ⟨hframe, _, _, hdest, _, _⟩ := saver_spec c k.env fs k.r k.filename
  have hd := hdest hk
  -- a published path other than the destination keeps its file
  have hother : ∀ n, isPublicName n → Join [c.fileStore, n] ≠ destinationOf c k.r.bytes k.filename →
      contentAt (saver c k.env fs k.r k.filename).1 (Join [c.fileStore, n]) =
        contentAt fs (Join [c.fileStore, n]) := by
    intro n hn hne
    unfold contentAt
    rw [hframe _ hne (fun hT => Ne.symm (temp_ne_public _ _ _ _ _ hT hn))]
  -- the digest in the name of the destination is the digest of the bytes stored
  have hname : ∀ d e, d.length = 20 → slash ∉ e →
      Join [c.fileStore, sprintfXS d e] = destinationOf c k.r.bytes k.filename →
      d = sha1Sum k.r.bytes := by
    intro d e hdl he heq
    have := Join_public_inj c.fileStore _ _ ⟨d, e, hdl, he, rfl⟩
      (isPublicName_sprintf k.r.bytes k.filename) heq
    exact (sprintfXS_inj _ _ _ _ hdl (sha1Sum_length _) this).1
  refine ⟨?_, ?_⟩
  · intro d e B hdl he hB
    by_cases hq : Join [c.fileStore, sprintfXS d e] = destinationOf c k.r.bytes k.filename
    · rw [hq] at hB
      rcases hd with h | h
      · rw [h, ← hq] at hB
        exact hinv d e B hdl he hB
      · rw [h] at hB
        have hb : k.r.bytes = B := Option.some.inj hB
        rw [← hb]
        exact (hname d e hdl he hq).symm
    · rw [hother _ ⟨d, e, hdl, he, rfl⟩ hq] at hB
      exact hinv d e B hdl he hB
  · intro n hn B hB
    by_cases hq : Join [c.fileStore, n] = destinationOf c k.r.bytes k.filename
    · rcases hd with h | h
      · exact ⟨B, by rw [hq, h, ← hq, hB], Or.inl rfl⟩
      · refine ⟨k.r.bytes, by rw [hq, h], Or.inr ⟨rfl, ?_⟩⟩
        obtain ⟨d, e, hdl, he, rfl⟩ := hn
        rw [hinv d e B hdl he hB]
        exact (hname d e hdl he hq).symm
    · exact ⟨B, by rw [hother n hn hq, hB], Or.inl rfl⟩

theorem runSavers_addressed (c : cass) (calls : List SaverCall) (fs : FS)
    (hk : ∀ k ∈ calls, k.env.renameFault = none ∨ k.env.mvCopyFault = none)
    (hinv : addressedByContent c fs) : addressedByContent c (runSavers c fs calls) := by
  induction calls generalizing fs with
  | nil => exact hinv
  | cons k ks ih =>
    rw [runSavers]
    exact ih _ (fun x hx => hk x (List.mem_cons_of_mem _ hx))
      (saver_step c k fs (hk k (List.mem_cons_self _ _)) hinv).1

theorem runSavers_stable (c : cass) (calls : List SaverCall) (fs : FS)
    (hk : ∀ k ∈ calls, k.env.renameFault = none ∨ k.env.mvCopyFault = none)
    (hinv : addressedByContent c fs) (n : GoString) (hn : isPublicName n) (B : List UInt8)
    (hB : contentAt fs (Join [c.fileStore, n]) = some B) :
    ∃ B1, contentAt (runSavers c fs calls) (Join [c.fileStore, n]) = some B1 ∧
      (B1 = B ∨ ∃ k ∈ calls, k.r.bytes ≠ B ∧ sha1Sum k.r.bytes = sha1Sum B) := by
  induction calls generalizing fs B with
  | nil => exact ⟨B, hB, Or.inl rfl⟩
  | cons k ks ih =>
    rw [runSavers]
    obtain ⟨hinv1, hstep⟩ := saver_step c k fs (hk k (List.mem_cons_self _ _)) hinv
    obtain ⟨B1, hB1, h1⟩ := hstep n hn B hB
    obtain ⟨B2, hB2, h2⟩ := ih _ (fun x hx => hk x (List.mem_cons_of_mem _ hx)) hinv1 B1 hB1
    refine ⟨B2, hB2, ?_⟩
    by_cases hb : B1 = B
    · subst hb
      rcases h2 with h2 | ⟨x, hx, hx1, hx2⟩
      · exact Or.inl h2
      · exact Or.inr ⟨x, List.mem_cons_of_mem _ hx, hx1, hx2⟩
    · rcases h1 with h1 | ⟨h1, h1s⟩
      · exact absurd h1 hb
      · right
        exact ⟨k, List.mem_cons_self _ _, by rw [← h1]; exact hb, h1s⟩

/-- C7, as amended. Start from a file system with no file under a published name
of the file store and run any sequence of `saver` calls in which no `moveFile`
fallback fails while copying. Once a file exists under a published name with
content `B`, it exists under that name after every later call, and its content
is `B` unless a later call stored different bytes with the same SHA-1 digest. -/
theorem published_content_kept (c : cass) (fs0 : FS) (before after : List SaverCall)
    (hempty : ∀ n, isPublicName n → fs0 (Join [c.fileStore, n]) = none)
    (hfallback : ∀ k ∈ before ++ after, k.env.renameFault = none ∨ k.env.mvCopyFault = none)
    (n : GoString) (hn : isPublicName n) (B : List UInt8)
    (hB : contentAt (runSavers c fs0 before) (Join [c.fileStore, n]) = some B) :
    ∃ B1, contentAt (runSavers c fs0 (before ++ after)) (Join [c.fileStore, n]) = some B1 ∧
      (B1 = B ∨ ∃ k ∈ after, k.r.bytes ≠ B ∧ sha1Sum k.r.bytes = sha1Sum B) := by
  have h0 : addressedByContent c fs0 := by
    intro d e B0 hd he h
    rw [contentAt, hempty _ ⟨d, e, hd, he, rfl⟩] at h
    simp at h
  have h1 : addressedByContent c (runSavers c fs0 before) :=
    runSavers_addressed c before fs0 (fun k hk => hfallback k (List.mem_append_left _ hk)) h0
  rw [runSavers_append]
  exact runSavers_stable c after _ (fun k hk => hfallback k (List.mem_append_right _ hk)) h1 n hn
    B hB

/-- C7, as amended, on `hello` stored by rename and stored again through the
fallback. -/
theorem published_content_kept_witness :
    contentAt (runSavers exampleCass emptyFS [storeHello])
      (Join [exampleCass.fileStore, str "aaf4c61ddcc5e8a2dabede0f3b482cd9aea9434d.txt"]) =
        some (str "hello") ∧
    ∃ B1, contentAt (runSavers exampleCass emptyFS ([storeHello] ++ [storeHelloAcross]))
        (Join [exampleCass.fileStore, str "aaf4c61ddcc5e8a2dabede0f3b482cd9aea9434d.txt"]) =
          some B1 ∧
      (B1 = str "hello" ∨
        ∃ k ∈ [storeHelloAcross], k.r.bytes ≠ str "hello" ∧
          sha1Sum k.r.bytes = sha1Sum (str "hello")) :=
  ⟨by decide,
    published_content_kept exampleCass emptyFS [storeHello] [storeHelloAcross]
      (fun _ _ => rfl)
      (by
        intro k hk
        simp only [List.singleton_append, List.mem_cons, List.mem_singleton, List.not_mem_nil,
          or_false] at hk
        rcases hk with rfl | rfl
        · exact Or.inl rfl
        · exact Or.inr rfl)
      (str "aaf4c61ddcc5e8a2dabede0f3b482cd9aea9434d.txt")
      ⟨sha1Sum (str "hello"), str ".txt", sha1Sum_length _, by decide, by decide⟩
      (str "hello") (by decide)⟩

/-- C7, as stated, fails. `hello` is stored as `hello.txt`; a second call stores
the same bytes, `os.Rename` fails, and the copy of the `moveFile` fallback fails
after two bytes: `os.Create` has truncated the published file, which now holds
`he`, and `saver` returns an error. -/
theorem fallback_failure_changes_published_file :
    contentAt (runSavers exampleCass emptyFS [storeHello])
      (str "/srv/c/aaf4c61ddcc5e8a2dabede0f3b482cd9aea9434d.txt") = some (str "hello") ∧
    (saver exampleCass brokenFallback (runSavers exampleCass emptyFS [storeHello]) helloReader
      (str "hello.txt")).2 =
        ([], some ⟨str "Writing to output file failed: no space left on device"⟩) ∧
    contentAt (runSavers exampleCass emptyFS [storeHello, storeHelloBroken])
      (str "/srv/c/aaf4c61ddcc5e8a2dabede0f3b482cd9aea9434d.txt") = some (str "he") := by
  decide

end Cass
